import Mathlib

/-!
# Verification of the simple-web-scrapper configurable extraction engine

Shallow embedding of the configurable-spider core of the repository:

* `field_utilities.py` — the field pipeline normalizers
  (`_price_digits`, `normalize_price`, `normalize_currency`,
  `normalize_description`, `normalize_images`);
* `base_configurable_spider.py` — the Selenium-driven configurable spider
  (`_sel_nodes`, `parse`, `extract_card_href`, `handle_pagination`,
  `parse_detail`, the `populate_*` family, `_normalize_*` helpers);
* `base_playwright_configurable_spider.py` — the Playwright variant
  (`_sel_nodes` with the root-anchored-xpath rewrite, the `populate_*`
  family instrumented for selector-engine invocations);
* `selenium_middleware_fixed.py` — `RobustSeleniumMiddleware.process_request`.

Python's dynamically typed values are modelled by `PyVal` (`None`, `str`,
`int` and lists thereof).  Machine-level details that the claims do not
touch (floats, byte strings) are outside the model.  `urljoin` /
`Response.urljoin` is an external library function and is modelled as an
arbitrary join function passed as a parameter.  The regular expressions of
the source are embedded as explicit character scanners with the exact
semantics of the patterns used: the tag pattern of `w3lib.remove_tags`
(a `<`, an optional slash, at least one character that is not a space,
a closing angle or a slash, then lazily anything up to the first closing
angle), the whitespace-run pattern, the price pattern (a first digit run
admitting embedded whitespace, commas, hyphens and slashes, with an
optional 1-2 digit decimal remainder), the leading-alphabetic-run pattern,
and the base64 data-URI prefix pattern.  `\s` and `str.strip` are read
over the common Unicode whitespace characters and `\d` over the decimal
digits. -/

/-- A Python value as the spiders pass them around: `None`, `str`, `int`,
or a list (covering Python's `list`/`tuple`/`set` sequence inputs). -/
inductive PyVal where
  | none : PyVal
  | str (s : String) : PyVal
  | int (n : Int) : PyVal
  | list (xs : List PyVal) : PyVal

/-- `· is None` on a `PyVal`. -/
def pyIsNone : PyVal → Bool
  | PyVal.none => true
  | _ => false

/-- Python truthiness of a `PyVal`. -/
def pyTruthy : PyVal → Bool
  | PyVal.none => false
  | PyVal.str s => s ≠ ""
  | PyVal.int n => n ≠ 0
  | PyVal.list xs => !xs.isEmpty

/-- Python `repr` of a value (used by `str` on lists). -/
def pyRepr : PyVal → String
  | PyVal.none => "None"
  | PyVal.str s => "\x27" ++ s ++ "\x27"
  | PyVal.int n => toString n
  | PyVal.list xs =>
    "[" ++ String.intercalate ", " (xs.attach.map fun v => pyRepr v.1) ++ "]"
termination_by v => sizeOf v
decreasing_by
  have := List.sizeOf_lt_of_mem v.2
  simp only [PyVal.list.sizeOf_spec]
  omega

/-- Python `str()` of a value. -/
def pyStr : PyVal → String
  | PyVal.none => "None"
  | PyVal.str s => s
  | PyVal.int n => toString n
  | PyVal.list xs => pyRepr (PyVal.list xs)

/-- An `Optional[str]` as returned by `_get_one`, seen as a `PyVal`. -/
def pyOfOptStr : Option String → PyVal
  | Option.none => PyVal.none
  | some s => PyVal.str s

/-- An `Optional[str]` result fed back into a normalizer. -/
def pyOfOpt : Option String → PyVal := pyOfOptStr

/-- A Python list of strings as a `PyVal`. -/
def pyStrList (l : List String) : PyVal := PyVal.list (l.map PyVal.str)

/-- The common Unicode whitespace characters: the set matched by `\s` and
stripped by `str.strip()` on the inputs this engine sees. -/
def pyIsSpace (c : Char) : Bool :=
  c = ' ' || c = '\t' || c = '\n' || c = '\r' || c = '\x0b' || c = '\x0c' ||
  c = '\x85' || c = '\xa0'

/-- Drop trailing whitespace (the right half of `str.strip()`). -/
def dropTrailWs (l : List Char) : List Char :=
  (l.reverse.dropWhile pyIsSpace).reverse

/-- `str.strip()` over the character list. -/
def pyStripL (l : List Char) : List Char :=
  dropTrailWs (l.dropWhile pyIsSpace)

/-- `str.strip()` on a `String`. -/
def pyStripS (s : String) : String := String.mk (pyStripL s.data)

/-- Fuel-driven worker for `collapseWs`; the fuel dominates the input
length on every reachable call. -/
def collapseWsGo : Nat → List Char → List Char
  | _, [] => []
  | 0, _ :: _ => []
  | f + 1, c :: r =>
    if pyIsSpace c then ' ' :: collapseWsGo f (r.dropWhile pyIsSpace)
    else c :: collapseWsGo f r

/-- `re.sub(r"\s+", " ", ·)`: replace each maximal whitespace run by one
ASCII space. -/
def collapseWs (l : List Char) : List Char := collapseWsGo l.length l

/-- `str.replace(" ", " ")` char map. -/
def replNbsp (c : Char) : Char := if c = '\xa0' then ' ' else c

/-!
## `w3lib.html.remove_tags`

`remove_tags` (with no `which_ones`/`keep`) substitutes every match of the
regex `</?([^ >/]+).*?>` (DOTALL) by the empty string.  A match starts at a
`<`, optionally consumes one `/`, then needs at least one character outside
`{' ', '>', '/'}` and ends at the first `>` after that character.
-/

/-- A character admissible in the `[^ >/]+` run of the tag regex. -/
def isNameChar (c : Char) : Bool := !(c = ' ' || c = '>' || c = '/')

/-- The remainder of the input after the first `>`, if any. -/
def afterGt : List Char → Option (List Char)
  | [] => Option.none
  | c :: r => if c = '>' then some r else afterGt r

/-- Given the characters following a `<`, the remainder after a regex match
of `</?([^ >/]+).*?>` starting at that `<`, or `none` if no match starts
there. -/
def tagRem : List Char → Option (List Char)
  | [] => Option.none
  | c :: r =>
    if c = '/' then
      match r with
      | [] => Option.none
      | c2 :: r2 => if isNameChar c2 then afterGt r2 else Option.none
    else
      if isNameChar c then afterGt r else Option.none

/-- Fuel-driven worker for `removeTags`; the fuel dominates the input
length on every reachable call. -/
def removeTagsGo : Nat → List Char → List Char
  | _, [] => []
  | 0, _ :: _ => []
  | f + 1, c :: rest =>
    match (if c = '<' then tagRem rest else Option.none) with
    | some rem => removeTagsGo f rem
    | Option.none => c :: removeTagsGo f rest

/-- `w3lib.html.remove_tags` over the character list: delete every regex
match, scanning left to right and resuming after each deleted match. -/
def removeTags (l : List Char) : List Char := removeTagsGo l.length l

/-- `remove_tags` on a `String`. -/
def removeTagsS (s : String) : String := String.mk (removeTags s.data)

/-- Analysis predicate for `removeTags`: no tag-regex match starts
anywhere in the list. -/
def noTagB : List Char → Bool
  | [] => true
  | c :: rest => (if c = '<' then (tagRem rest).isNone else true) && noTagB rest

/-- Analysis predicate for `collapseWs`: no two adjacent whitespace
characters. -/
def noAdjWs : List Char → Bool
  | [] => true
  | [_] => true
  | c1 :: c2 :: r => !(pyIsSpace c1 && pyIsSpace c2) && noAdjWs (c2 :: r)

/-!
## Field normalizers (`field_utilities.py` / `ConfigurableBaseSpider`)

`FieldUtilities.normalize_price` / `normalize_currency` /
`normalize_description` / `normalize_images` and the textually identical
spider helpers `_normalize_price_value` / `_normalize_currency_value` /
`_normalize_description_value` (`normalize_price_digits` is the spider's
copy of `_price_digits`).
-/

/-- `\d` on the inputs the engine sees (decimal digits). -/
def pyIsDigit (c : Char) : Bool := '0' ≤ c && c ≤ '9'

/-- A character of the noise class inside the price digit run:
digits, whitespace, commas, hyphens, slashes. -/
def priceRunChar (c : Char) : Bool :=
  pyIsDigit c || pyIsSpace c || c = ',' || c = '-' || c = '/'

/-- A separator removed from the matched digit run (whitespace, commas,
hyphens, slashes). -/
def priceSepChar (c : Char) : Bool :=
  pyIsSpace c || c = ',' || c = '-' || c = '/'

/-- Digit-string to integer (`int(...)` on an all-digit string). -/
def digitsToInt (l : List Char) : Int :=
  Int.ofNat (l.foldl (fun a c => a * 10 + (c.toNat - '0'.toNat)) 0)

/-- `FieldUtilities._price_digits` (= `normalize_price_digits` of the base
spider): search the price pattern, strip separators from the first digit
run, return the integer if the remainder is all digits. -/
def price_digits : List Char → Option Int
  | [] => Option.none
  | c :: r =>
    if pyIsDigit c then
      let run := c :: r.takeWhile priceRunChar
      let normalized := run.filter (fun d => !priceSepChar d)
      if normalized ≠ [] && normalized.all pyIsDigit then
        some (digitsToInt normalized)
      else Option.none
    else price_digits r

/-- The scan over price candidates inside `normalize_price`: skip `None`
candidates, take the first candidate whose stripped,
non-breaking-space-replaced text contains a digit run. -/
def priceScan : List PyVal → Option Int
  | [] => Option.none
  | c :: rest =>
    match c with
    | PyVal.none => priceScan rest
    | cand =>
      let t := (pyStripL (pyStr cand).data).map replNbsp
      match price_digits t with
      | some n => some n
      | Option.none => priceScan rest

/-- `FieldUtilities.normalize_price` (= `_normalize_price_value`). -/
def normalize_price (v : PyVal) : Option Int :=
  match v with
  | PyVal.none => Option.none
  | PyVal.list xs => priceScan xs
  | w => priceScan [w]

/-- `[A-Za-z]`. -/
def isAsciiAlpha (c : Char) : Bool :=
  ('A' ≤ c && c ≤ 'Z') || ('a' ≤ c && c ≤ 'z')

/-- `re.search(r"\d+", ·)` succeeds. -/
def containsDigit (l : List Char) : Bool := l.any pyIsDigit

/-- `re.search(r"([A-Za-z]+)", ·)`: the first maximal alphabetic run. -/
def firstAlphaRun : List Char → Option (List Char)
  | [] => Option.none
  | c :: r =>
    if isAsciiAlpha c then some (c :: r.takeWhile isAsciiAlpha)
    else firstAlphaRun r

/-- The scan over currency candidates inside `normalize_currency`: skip
non-string candidates and blank strings; if the text has a digit or its
length is 2-3, return the first alphabetic run (continuing the scan when
there is none); otherwise return the trimmed text. -/
def currencyScan : List PyVal → Option String
  | [] => Option.none
  | c :: rest =>
    match c with
    | PyVal.str s =>
      if pyStripL s.data = [] then currencyScan rest
      else if containsDigit (pyStripL s.data) ||
          (2 ≤ (pyStripL s.data).length && (pyStripL s.data).length ≤ 3) then
        match firstAlphaRun (pyStripL s.data) with
        | some run => some (String.mk run)
        | Option.none => currencyScan rest
      else some (String.mk (pyStripL s.data))
    | _ => currencyScan rest

/-- `FieldUtilities.normalize_currency` (= `_normalize_currency_value`). -/
def normalize_currency (v : PyVal) : Option String :=
  match v with
  | PyVal.none => Option.none
  | PyVal.list xs => currencyScan xs
  | w => currencyScan [w]

/-- The string pipeline of `normalize_description`: strip markup tags,
replace non-breaking spaces, collapse whitespace runs, trim. -/
def normDescStr (s : String) : Option String :=
  let cleaned := pyStripL (collapseWs ((removeTags s.data).map replNbsp))
  if cleaned = [] then Option.none else some (String.mk cleaned)

/-- `FieldUtilities.normalize_description` (= `_normalize_description_value`):
lists are joined by newlines over their truthy elements, scalars go through
`str`, then the cleaning pipeline runs. -/
def normalize_description (v : PyVal) : Option String :=
  match v with
  | PyVal.none => Option.none
  | PyVal.list xs =>
    normDescStr (String.intercalate "\n" ((xs.filter pyTruthy).map pyStr))
  | w => normDescStr (pyStr w)

/-- `ConfigurableBaseSpider._clean_extracted_value`: `None` stays `None`,
strings are tag-stripped and trimmed (empty becomes `None`), anything else
passes through. -/
def clean_extracted_value : PyVal → Option PyVal
  | PyVal.none => Option.none
  | PyVal.str s =>
    let cleaned := pyStripL (removeTags s.data)
    if cleaned = [] then Option.none else some (PyVal.str (String.mk cleaned))
  | v => some v

/-!
## Image normalizers

`FieldUtilities.normalize_images` drops entries that start with
`data:image/`; `ConfigurableBaseSpider._normalize_image_values` drops
entries matching the regex for `data:image`, a subtype, `;base64,`.  Both
resolve kept entries through the page-base join (`Response.urljoin` /
`urljoin(str(base or ""), ·)`), modelled by the `join` parameter.
-/

/-- `str.startswith` over character lists (first argument: the text,
second: the prefix tested). -/
def startsWithL : List Char → List Char → Bool
  | _, [] => true
  | [], _ :: _ => false
  | c :: r, p :: ps => c = p && startsWithL r ps

/-- `str.startswith` on `String`. -/
def pyStartsWith (s pre : String) : Bool := startsWithL s.data pre.data

/-- `^data:image/[^;]+;base64,` matches at the start of `s`. -/
def isDataImageB64 (s : String) : Bool :=
  if pyStartsWith s "data:image/" then
    let rest := s.data.drop "data:image/".data.length
    let mid := rest.takeWhile (fun c => c ≠ ';')
    let tail := rest.dropWhile (fun c => c ≠ ';')
    mid ≠ [] && startsWithL tail ";base64,".data
  else false

/-- The entry list a sequence-or-scalar input denotes (`str` wraps as a
singleton, lists enumerate, anything else wraps as a singleton). -/
def imageRawList : PyVal → List PyVal
  | PyVal.none => []
  | PyVal.str s => [PyVal.str s]
  | PyVal.list xs => xs
  | v => [v]

/-- `FieldUtilities.normalize_images` with the base join applied: skip
non-strings, trim, drop empties and `data:image/`-prefixed entries, join
the rest. -/
def normalize_images (join : String → String) (values : PyVal) : List String :=
  (imageRawList values).filterMap fun raw =>
    match raw with
    | PyVal.str s =>
      let url := pyStripS s
      if url = "" || pyStartsWith url "data:image/" then Option.none
      else some (join url)
    | _ => Option.none

/-- The core of `ConfigurableBaseSpider._normalize_image_values` with the
base join applied: skip non-strings, trim, drop empties and base64
data-URIs, join the rest. -/
def normalize_image_core (join : String → String) (values : PyVal) : List String :=
  (imageRawList values).filterMap fun raw =>
    match raw with
    | PyVal.str s =>
      let url := pyStripS s
      if url = "" then Option.none
      else if isDataImageB64 url then Option.none
      else some (join url)
    | _ => Option.none

/-- `ConfigurableBaseSpider._normalize_image_values`: resolve the base
(`str(base or "")` for non-`Response` bases) and run the core. -/
def normalize_image_values (urljoin : String → String → String) (base : PyVal)
    (values : PyVal) : List String :=
  normalize_image_core (urljoin (if pyTruthy base then pyStr base else "")) values

/-- The entries both image normalizers keep when the input is a list of
strings whose data URIs are base64 `data:image` URIs: non-blank after
trimming and not `data:image/`-prefixed. -/
def keptImageEntry (s : String) : Bool :=
  pyStripS s ≠ "" && !pyStartsWith (pyStripS s) "data:image/"

/-!
## Configuration rules, items, and the Selector Engine
-/

/-- A field rule as read from the JSON site descriptor: a duck-typed dict
restricted to the keys the engine inspects.  `default_value = some v`
models the `default_value` key being present with value `v` (so
`some PyVal.none` is an explicit null default and `Option.none` an absent
key). -/
structure Rule where
  css : Option String := Option.none
  xpath : Option String := Option.none
  get_all : Bool := false
  default_value : Option PyVal := Option.none

/-- Truthiness of `rule.get(key)` for a string-valued key (`None` and the
empty string are falsy). -/
def truthyOptStr : Option String → Bool
  | Option.none => false
  | some s => s ≠ ""

/-- The root a locator is resolved against: a scrapy `Response` (the full
rendered document) or a parsed `Selector` node (a listing card, or the
document-level selector the Playwright spider builds). -/
inductive SelRoot where
  | responseRoot : SelRoot
  | selectorNode : SelRoot
deriving DecidableEq, Repr

/-- `isinstance(root, Selector)`. -/
def SelRoot.isSelector : SelRoot → Bool
  | SelRoot.responseRoot => false
  | SelRoot.selectorNode => true

/-- The query `_sel_nodes` runs against the root. -/
inductive SelQuery where
  | cssQ (s : String) : SelQuery
  | xpathQ (s : String) : SelQuery
deriving DecidableEq, Repr

/-- `ConfigurableBaseSpider._sel_nodes`: a falsy rule queries the
never-matching css class; a truthy `css` key wins over `xpath`; an xpath
expression is passed to the root unchanged. -/
def sel_nodes_base (root : SelRoot) (rule : Option Rule) : SelQuery :=
  match rule with
  | Option.none => SelQuery.cssQ ".__never__"
  | some r =>
    if truthyOptStr r.css then SelQuery.cssQ (r.css.getD "")
    else if truthyOptStr r.xpath then SelQuery.xpathQ (r.xpath.getD "")
    else SelQuery.cssQ ".__never__"

/-- `PlaywrightConfigurableBaseSpider._sel_nodes`: as the base spider,
except that an expression starting with `//` gets `.` prepended when the
root is a parsed `Selector` node. -/
def sel_nodes_pw (root : SelRoot) (rule : Option Rule) : SelQuery :=
  match rule with
  | Option.none => SelQuery.cssQ ".__never__"
  | some r =>
    if truthyOptStr r.css then SelQuery.cssQ (r.css.getD "")
    else if truthyOptStr r.xpath then
      let e := r.xpath.getD ""
      SelQuery.xpathQ
        (if pyStartsWith e "//" && root.isSelector then "." ++ e else e)
    else SelQuery.cssQ ".__never__"

/-- A scrapy `Item` as a key-to-value assignment (`Option.none` = key not
set). -/
def Item := String → Option PyVal

/-- A freshly constructed item. -/
def emptyItem : Item := fun _ => Option.none

/-- `item[key] = v`. -/
def itemSet (it : Item) (k : String) (v : PyVal) : Item :=
  fun q => if q = k then some v else it q

/-- `get_reserved_detail_keys()` (identical in both spiders). -/
def reservedKeys : List String := ["images", "description", "price", "currency"]

/-- `fields.get(key)` over the rule dict, modelled as an association
list. -/
def lookupRule (k : String) (fields : List (String × Rule)) : Option Rule :=
  (fields.find? (fun p => p.1 == k)).map (fun p => p.2)

/-- `dict.get(key)` over a carried listing-fields dict. -/
def lookupVal (k : String) (m : List (String × PyVal)) : Option PyVal :=
  (m.find? (fun p => p.1 == k)).map (fun p => p.2)

/-!
## Record assembly: `ConfigurableBaseSpider.parse_detail` and helpers

The selector engine applied to the detail response is abstracted by the
oracles `gOne : Rule → Option String` (`self._get_one(response, rule)`,
which is `sel.get() or None`) and `gAll : Rule → List String`
(`self._get_all(response, rule)`).  `join` stands for `response.urljoin`
and `urljoin` for `urllib.parse.urljoin`.  The conditional assignments
`if value: item[key] = value` / `if value is not None: item[key] = value`
are written through `assignIfSome` applied to the optional produced
value. -/

/-- A guarded item assignment: set the key when the stage produced a
value, leave the item unchanged otherwise. -/
def assignIfSome (it : Item) (k : String) (o : Option PyVal) : Item :=
  match o with
  | some v => itemSet it k v
  | Option.none => it

/-- The detail-stage images value of
`ConfigurableBaseSpider.populate_images`: nothing without a truthy images
rule, else the normalized extracted URL list. -/
def detail_images_b (join : String → String) (gAll : Rule → List String)
    (fields : List (String × Rule)) : List String :=
  match lookupRule "images" fields with
  | Option.none => []
  | some rule => normalize_image_core join (pyStrList (gAll rule))

/-- The detail-stage description value of
`ConfigurableBaseSpider.populate_description`: a non-null `default_value`
is normalized; otherwise the selector result (all matches joined by
newlines under `get_all`, else the single match) is tag-stripped and
normalized. -/
def detail_description_b (gOne : Rule → Option String)
    (gAll : Rule → List String) (fields : List (String × Rule)) :
    Option String :=
  match lookupRule "description" fields with
  | Option.none => Option.none
  | some rule =>
    if !pyIsNone (rule.default_value.getD PyVal.none) then
      normalize_description (rule.default_value.getD PyVal.none)
    else
      let text :=
        if rule.get_all then
          removeTagsS (String.intercalate "\n" ((gAll rule).filter (fun p => p ≠ "")))
        else
          match gOne rule with
          | some h => if h ≠ "" then removeTagsS h else ""
          | Option.none => ""
      normalize_description (PyVal.str text)

/-- The detail-stage price value of
`ConfigurableBaseSpider.populate_price`: a present `default_value` key
short-circuits (normalized), else the selector result is normalized. -/
def detail_price_b (gOne : Rule → Option String)
    (fields : List (String × Rule)) : Option Int :=
  match lookupRule "price" fields with
  | Option.none => Option.none
  | some rule =>
    if rule.default_value.isSome then
      normalize_price (rule.default_value.getD PyVal.none)
    else normalize_price (pyOfOptStr (gOne rule))

/-- The detail-stage currency value of
`ConfigurableBaseSpider.populate_currency`. -/
def detail_currency_b (gOne : Rule → Option String)
    (fields : List (String × Rule)) : Option String :=
  match lookupRule "currency" fields with
  | Option.none => Option.none
  | some rule =>
    if rule.default_value.isSome then
      normalize_currency (rule.default_value.getD PyVal.none)
    else normalize_currency (pyOfOptStr (gOne rule))

/-- `ConfigurableBaseSpider.populate_generic_fields`: for each
non-reserved field, a present `default_value` key short-circuits (its
cleaned value is assigned when not `None`); otherwise the selector result
is cleaned and assigned when not `None`. -/
def populate_generic_fields_b (gOne : Rule → Option String)
    (fields : List (String × Rule)) (it : Item) : Item :=
  fields.foldl
    (fun acc kr =>
      if kr.1 ∈ reservedKeys then acc
      else if kr.2.default_value.isSome then
        assignIfSome acc kr.1
          (clean_extracted_value (kr.2.default_value.getD PyVal.none))
      else
        assignIfSome acc kr.1 (clean_extracted_value (pyOfOptStr (gOne kr.2))))
    it

/-- `ConfigurableBaseSpider.populate_images`: assign the normalized URL
list only when non-empty. -/
def populate_images_b (join : String → String) (gAll : Rule → List String)
    (fields : List (String × Rule)) (it : Item) : Item :=
  assignIfSome it "images"
    (let images := detail_images_b join gAll fields
     if !images.isEmpty then some (pyStrList images) else Option.none)

/-- `ConfigurableBaseSpider.populate_description`: assign the detail-stage
description when truthy. -/
def populate_description_b (gOne : Rule → Option String)
    (gAll : Rule → List String) (fields : List (String × Rule)) (it : Item) :
    Item :=
  assignIfSome it "description"
    ((detail_description_b gOne gAll fields).map PyVal.str)

/-- `ConfigurableBaseSpider.populate_price`: assign the detail-stage price
when it is not `None`. -/
def populate_price_b (gOne : Rule → Option String)
    (fields : List (String × Rule)) (it : Item) : Item :=
  assignIfSome it "price" ((detail_price_b gOne fields).map PyVal.int)

/-- `ConfigurableBaseSpider.populate_currency`: assign the detail-stage
currency when truthy. -/
def populate_currency_b (gOne : Rule → Option String)
    (fields : List (String × Rule)) (it : Item) : Item :=
  assignIfSome it "currency" ((detail_currency_b gOne fields).map PyVal.str)

/-- `ConfigurableBaseSpider.populate_listing_fields`: pop the internal
`_listing_base` key (defaulting to the response URL) as the image base,
normalize and assign the four well-known fields when they produce a
value, then copy the remaining non-reserved listing fields after
cleaning. -/
def populate_listing_fields_b (urljoin : String → String → String)
    (respUrl : String) (lf : List (String × PyVal)) (it : Item) : Item :=
  let basePy := (lookupVal "_listing_base" lf).getD (PyVal.str respUrl)
  let lf2 := lf.filter (fun p => p.1 ≠ "_listing_base")
  let it := assignIfSome it "images"
    (match lookupVal "images" lf2 with
     | some v =>
       let images := normalize_image_values urljoin basePy v
       if !images.isEmpty then some (pyStrList images) else Option.none
     | Option.none => Option.none)
  let it := assignIfSome it "description"
    (((lookupVal "description" lf2).bind normalize_description).map PyVal.str)
  let it := assignIfSome it "price"
    (((lookupVal "price" lf2).bind normalize_price).map PyVal.int)
  let it := assignIfSome it "currency"
    (((lookupVal "currency" lf2).bind normalize_currency).map PyVal.str)
  lf2.foldl
    (fun acc kv =>
      if kv.1 ∈ reservedKeys then acc
      else assignIfSome acc kv.1 (clean_extracted_value kv.2))
    it

/-- `ConfigurableBaseSpider.parse_detail` (the emitted record): title and
URL, carried listing fields when truthy, then the detail-stage populate
chain. -/
def parse_detail_b (urljoin : String → String → String)
    (gOne : Rule → Option String) (gAll : Rule → List String)
    (respUrl title : String) (lf : List (String × PyVal))
    (fields : List (String × Rule)) : Item :=
  let it := itemSet (itemSet emptyItem "title" (PyVal.str title)) "url" (PyVal.str respUrl)
  let it := if !lf.isEmpty then populate_listing_fields_b urljoin respUrl lf it else it
  let it := populate_generic_fields_b gOne fields it
  let it := populate_images_b (urljoin respUrl) gAll fields it
  let it := populate_description_b gOne gAll fields it
  let it := populate_price_b gOne fields it
  populate_currency_b gOne fields it

/-- The item state of `parse_detail` right after the listing-carry stage
(title, url, then `populate_listing_fields` when the carried dict is
truthy): the listing-carried values of the emitted record. -/
def listing_stage_item_b (urljoin : String → String → String)
    (respUrl title : String) (lf : List (String × PyVal)) : Item :=
  let it := itemSet (itemSet emptyItem "title" (PyVal.str title)) "url" (PyVal.str respUrl)
  if !lf.isEmpty then populate_listing_fields_b urljoin respUrl lf it else it

/-!
## Record assembly: `PlaywrightConfigurableBaseSpider`

The Playwright spider routes every value through
`FieldUtilities.process_detail` / `process_listing` (a pipeline resolved
per field name and rule); those dispatchers are abstracted by a
`process : String → Option Rule → PyVal → PyVal` parameter
(key, rule, raw value).  `populate_generic_fields` and
`populate_description` are instrumented with the selector-engine queries
they issue: the second component lists the field keys for which
`_get_one`/`_get_all` ran.
-/

/-- `PlaywrightConfigurableBaseSpider.populate_generic_fields`,
instrumented: a present `default_value` key is assigned verbatim with no
selector query; otherwise the selector is queried (the key is logged) and
the processed value assigned when not `None`. -/
def populate_generic_fields_pw (process : String → Option Rule → PyVal → PyVal)
    (gOne : Rule → Option String) (fields : List (String × Rule)) (it : Item) :
    Item × List String :=
  fields.foldl
    (fun acc kr =>
      if kr.1 ∈ reservedKeys then acc
      else if kr.2.default_value.isSome then
        (itemSet acc.1 kr.1 (kr.2.default_value.getD PyVal.none), acc.2)
      else
        let val := gOne kr.2
        let cleaned := process kr.1 (some kr.2) (pyOfOptStr val)
        (if !pyIsNone cleaned then itemSet acc.1 kr.1 cleaned else acc.1,
         acc.2 ++ [kr.1]))
    (it, [])

/-- `PlaywrightConfigurableBaseSpider.populate_description`, instrumented
(the boolean reports whether the selector engine was queried): a non-null
`default_value` is assigned verbatim without a query; a missing rule does
nothing; otherwise the selector is queried and the processed value
assigned when truthy. -/
def populate_description_pw (process : String → Option Rule → PyVal → PyVal)
    (gOne : Rule → Option String) (gAll : Rule → List String)
    (fields : List (String × Rule)) (it : Item) : Item × Bool :=
  match lookupRule "description" fields with
  | Option.none => (it, false)
  | some rule =>
    if !pyIsNone (rule.default_value.getD PyVal.none) then
      (itemSet it "description" (rule.default_value.getD PyVal.none), false)
    else
      let raw := if rule.get_all then pyStrList (gAll rule) else pyOfOptStr (gOne rule)
      let description := process "description" (some rule) raw
      (if pyTruthy description then itemSet it "description" description else it,
       true)

/-- `PlaywrightConfigurableBaseSpider.populate_listing_fields`: pop the
internal `_listing_base` key, run the four well-known fields through the
pipeline dispatcher and assign them when they produce a value, then copy
the remaining non-reserved listing fields through the dispatcher. -/
def populate_listing_fields_pw (process : String → Option Rule → PyVal → PyVal)
    (listing_rules : List (String × Rule)) (lf : List (String × PyVal))
    (it : Item) : Item :=
  let lf2 := lf.filter (fun p => p.1 ≠ "_listing_base")
  let it := assignIfSome it "images"
    (match lookupVal "images" lf2 with
     | some v =>
       let images := process "images" (lookupRule "images" listing_rules) v
       if pyTruthy images then some images else Option.none
     | Option.none => Option.none)
  let it := assignIfSome it "description"
    (match lookupVal "description" lf2 with
     | some v =>
       let description := process "description" (lookupRule "description" listing_rules) v
       if pyTruthy description then some description else Option.none
     | Option.none => Option.none)
  let it := assignIfSome it "price"
    (match lookupVal "price" lf2 with
     | some v =>
       let price := process "price" (lookupRule "price" listing_rules) v
       if !pyIsNone price then some price else Option.none
     | Option.none => Option.none)
  let it := assignIfSome it "currency"
    (match lookupVal "currency" lf2 with
     | some v =>
       let currency := process "currency" (lookupRule "currency" listing_rules) v
       if pyTruthy currency then some currency else Option.none
     | Option.none => Option.none)
  lf2.foldl
    (fun acc kv =>
      if kv.1 ∈ reservedKeys then acc
      else
        let cleaned := process kv.1 (lookupRule kv.1 listing_rules) kv.2
        if !pyIsNone cleaned then itemSet acc kv.1 cleaned else acc)
    it

/-!
## Crawl orchestration: `ConfigurableBaseSpider.parse` and pagination

`selGet : Rule → Option String` abstracts `self._get_one(response, rule)`
on the listing response (so `sel.get() or None` is already applied by the
oracle's `Option`); card-level selector results live inside `Card`.
-/

/-- One listing card, described by the values the card-level selector
queries produce: `_get_one(card, title_rule)`,
`_get_one(card, detail_link_rule)` and the result of
`extract_card_listing_fields`. -/
structure Card where
  title_one : Option String := Option.none
  href_one : Option String := Option.none
  listing_raw : List (String × PyVal) := []

/-- `ConfigurableBaseSpider.extract_card_title`:
`(self._get_one(card, rule) or "").strip()`. -/
def extract_card_title_b (card : Card) : String :=
  pyStripS ((card.title_one).getD "")

/-- `ConfigurableBaseSpider.extract_card_href`: the extracted link,
stripped when truthy. -/
def extract_card_href_b (card : Card) : Option String :=
  match card.href_one with
  | Option.none => Option.none
  | some h => if h ≠ "" then some (pyStripS h) else some h

/-- A queued detail request (`build_detail_request`): target URL resolved
against the listing page, plus the carried callback kwargs. -/
structure DetailRequest where
  url : String
  title : String
  listing_fields : List (String × PyVal)

/-- The detail requests the card loop of `ConfigurableBaseSpider.parse`
yields: one request per card with a truthy href, in card order. -/
def parse_card_requests_b (urljoin : String → String → String)
    (respUrl : String) (cards : List Card) : List DetailRequest :=
  cards.filterMap fun card =>
    let title := extract_card_title_b card
    match extract_card_href_b card with
    | some h =>
      if h ≠ "" then some ⟨urljoin respUrl h, title, card.listing_raw⟩
      else Option.none
    | Option.none => Option.none

/-- The pagination section of the listing config. -/
structure PaginationCfg where
  next_button : Option Rule := Option.none
  next_anchor : Option Rule := Option.none
  first_card_link_css : Option String := Option.none
  wait_css : String := ""

/-- A pagination fetch instruction. -/
inductive PRequest where
  | buttonClick (url : String) (script : String) (page_num : Nat) : PRequest
  | anchorNav (url : String) (page_num : Nat) : PRequest
deriving DecidableEq, Repr

/-- `json.dumps` of a plain string: quote, escaping backslashes and
quotes. -/
def json_dumps_str (s : String) : String :=
  "\"" ++ String.mk (s.data.foldr
    (fun c acc => if c = '"' || c = '\\' then '\\' :: c :: acc else c :: acc)
    []) ++ "\""

/-- `ConfigurableBaseSpider.get_next_button_script`: the in-page script
that clicks the next button and polls for the first card to change. -/
def get_next_button_script (button_css first_card_link_css : String) : String :=
  let button_css_js := json_dumps_str button_css
  let first_css_js := json_dumps_str first_card_link_css
  "\n            const firstCardBefore = document.querySelector(" ++ first_css_js ++ ");\n" ++
  "            const hrefBefore = firstCardBefore ? firstCardBefore.href : null;\n" ++
  "            const button = document.querySelector(" ++ button_css_js ++ ");\n" ++
  "            if (!button) \x7b\n" ++
  "                return false;\n" ++
  "            \x7d\n" ++
  "            button.click();\n" ++
  "            return new Promise((resolve) => \x7b\n" ++
  "                let attempts = 0;\n" ++
  "                const maxAttempts = 50;\n" ++
  "                const iv = setInterval(() => \x7b\n" ++
  "                    attempts++;\n" ++
  "                    const firstCardNow = document.querySelector(" ++ first_css_js ++ ");\n" ++
  "                    const hrefNow = firstCardNow ? firstCardNow.href : null;\n" ++
  "                    if (hrefNow && hrefNow !== hrefBefore) \x7b\n" ++
  "                        clearInterval(iv); resolve(true);\n" ++
  "                    \x7d else if (attempts >= maxAttempts) \x7b\n" ++
  "                        clearInterval(iv); resolve(false);\n" ++
  "                    \x7d\n" ++
  "                \x7d, 100);\n" ++
  "            \x7d);\n" ++
  "        "

/-- `ConfigurableBaseSpider.build_next_button_request`: needs a truthy
first-card css and button css and a non-empty script; the click request
re-fetches the current URL with the script attached. -/
def build_next_button_request_b (cfg : PaginationCfg) (respUrl : String)
    (page_num : Nat) (btn_rule : Rule) : Option PRequest :=
  let first_card_link_css := cfg.first_card_link_css.getD ""
  let button_css := btn_rule.css.getD ""
  if first_card_link_css = "" || button_css = "" then Option.none
  else
    let script := get_next_button_script button_css first_card_link_css
    if script = "" then Option.none
    else some (PRequest.buttonClick respUrl script (page_num + 1))

/-- `ConfigurableBaseSpider.build_next_anchor_request`: a truthy next
href yields a navigation request to it. -/
def build_next_anchor_request_b (selGet : Rule → Option String)
    (page_num : Nat) (anc_rule : Rule) : Option PRequest :=
  match selGet anc_rule with
  | some h => if h ≠ "" then some (PRequest.anchorNav h (page_num + 1)) else Option.none
  | Option.none => Option.none

/-- `ConfigurableBaseSpider.handle_pagination`: when a next-button rule is
configured, resolves to anything and has a css selector, the button click
request is yielded and wins; in every other case (no button rule, nothing
resolved, no css, or no buildable button request) the anchor strategy
runs. -/
def handle_pagination_b (selGet : Rule → Option String) (cfg : PaginationCfg)
    (respUrl : String) (page_num : Nat) : List PRequest :=
  let anchor : List PRequest :=
    match cfg.next_anchor with
    | some ar =>
      match build_next_anchor_request_b selGet page_num ar with
      | some r => [r]
      | Option.none => []
    | Option.none => []
  match cfg.next_button with
  | some br =>
    if truthyOptStr (selGet br) && truthyOptStr br.css then
      match build_next_button_request_b cfg respUrl page_num br with
      | some r => [r]
      | Option.none => anchor
    else anchor
  | Option.none => anchor

/-- Everything one `ConfigurableBaseSpider.parse` call yields: the detail
requests of the card loop, then the pagination requests. -/
def parse_yield_b (urljoin : String → String → String)
    (selGet : Rule → Option String) (cfg : PaginationCfg) (respUrl : String)
    (page_num : Nat) (cards : List Card) : List DetailRequest × List PRequest :=
  (parse_card_requests_b urljoin respUrl cards,
   handle_pagination_b selGet cfg respUrl page_num)

/-!
## Browser session manager: `RobustSeleniumMiddleware.process_request`

The rendering backend's behaviour is an oracle mapping the attempt index
to its outcome (`driver.get` + wait + script + page-source read as one
fetch).  The middleware state tracks `self.driver` liveness,
`self._driver_failed`, and an instrumentation counter of
`_recreate_driver` calls.
-/

/-- Outcome of one backend fetch attempt. -/
inductive FetchOutcome where
  | success (html : String) : FetchOutcome
  | invalidSession : FetchOutcome
  | timeoutSignal : FetchOutcome
  | webdriverError : FetchOutcome
deriving DecidableEq, Repr

/-- An exception propagated out of `process_request`. -/
inductive FetchError where
  | invalidSession : FetchError
  | timeoutSignal : FetchError
  | webdriverError : FetchError
deriving DecidableEq, Repr

/-- Middleware driver state. -/
structure DriverState where
  driver_live : Bool := true
  driver_failed : Bool := false
  recreations : Nat := 0
deriving DecidableEq, Repr

/-- `RobustSeleniumMiddleware._recreate_driver`. -/
def recreate_driver (st : DriverState) : DriverState :=
  { driver_live := true, driver_failed := false, recreations := st.recreations + 1 }

/-- The guard at the top of each attempt:
`if self._driver_failed or not self.driver: self._recreate_driver()`. -/
def prepare_driver (st : DriverState) : DriverState :=
  if st.driver_failed || !st.driver_live then recreate_driver st else st

/-- The result of `process_request`. -/
inductive MwResult where
  | passThrough : MwResult
  | htmlResponse (html : String) : MwResult
  | raised (e : FetchError) : MwResult
deriving DecidableEq, Repr

/-- `RobustSeleniumMiddleware.process_request`: non-Selenium requests pass
through; otherwise up to two attempts run.  A session-invalidity or
webdriver error on the first attempt marks the driver failed and retries
once (the second attempt therefore recreates the driver first); the same
error on the retry is raised.  A readiness timeout is raised immediately
and never marks the driver failed. -/
def process_request (is_selenium_request : Bool)
    (backend : Nat → FetchOutcome) (st : DriverState) :
    MwResult × DriverState :=
  if !is_selenium_request then (MwResult.passThrough, st)
  else
    let st0 := prepare_driver st
    match backend 0 with
    | FetchOutcome.success h => (MwResult.htmlResponse h, st0)
    | FetchOutcome.timeoutSignal =>
      (MwResult.raised FetchError.timeoutSignal, st0)
    | FetchOutcome.invalidSession =>
      let st1 := prepare_driver { st0 with driver_failed := true }
      match backend 1 with
      | FetchOutcome.success h => (MwResult.htmlResponse h, st1)
      | FetchOutcome.timeoutSignal =>
        (MwResult.raised FetchError.timeoutSignal, st1)
      | FetchOutcome.invalidSession =>
        (MwResult.raised FetchError.invalidSession, { st1 with driver_failed := true })
      | FetchOutcome.webdriverError =>
        (MwResult.raised FetchError.webdriverError, { st1 with driver_failed := true })
    | FetchOutcome.webdriverError =>
      let st1 := prepare_driver { st0 with driver_failed := true }
      match backend 1 with
      | FetchOutcome.success h => (MwResult.htmlResponse h, st1)
      | FetchOutcome.timeoutSignal =>
        (MwResult.raised FetchError.timeoutSignal, st1)
      | FetchOutcome.invalidSession =>
        (MwResult.raised FetchError.invalidSession, { st1 with driver_failed := true })
      | FetchOutcome.webdriverError =>
        (MwResult.raised FetchError.webdriverError, { st1 with driver_failed := true })

/-!
## Lemmas

Basic equations and facts about the embedded scanners.
-/

theorem collapseWsGo_congr :
    ∀ (f : Nat) (l : List Char), l.length ≤ f → ∀ (g : Nat), l.length ≤ g →
      collapseWsGo f l = collapseWsGo g l := by
  intro f
  induction f with
  | zero =>
    intro l hl g _
    match l, hl with
    | [], _ => cases g <;> rfl
  | succ f ih =>
    intro l hl g hg
    match l with
    | [] => cases g <;> rfl
    | c :: r =>
      match g with
      | 0 => exact absurd hg (by simp)
      | g + 1 =>
        simp only [collapseWsGo]
        by_cases hc : pyIsSpace c
        · simp only [hc, if_true]
          have hr : (r.dropWhile pyIsSpace).length ≤ r.length :=
            (List.dropWhile_sublist pyIsSpace).length_le
          have h1 : (r.dropWhile pyIsSpace).length ≤ f := by
            simp only [List.length_cons] at hl; omega
          have h2 : (r.dropWhile pyIsSpace).length ≤ g := by
            simp only [List.length_cons] at hg; omega
          rw [ih _ h1 _ h2]
        · have h1 : r.length ≤ f := by simp only [List.length_cons] at hl; omega
          have h2 : r.length ≤ g := by simp only [List.length_cons] at hg; omega
          simp [hc, ih _ h1 _ h2]

theorem collapseWs_nil : collapseWs [] = [] := rfl

theorem collapseWs_cons_ws {c : Char} (r : List Char) (h : pyIsSpace c) :
    collapseWs (c :: r) = ' ' :: collapseWs (r.dropWhile pyIsSpace) := by
  unfold collapseWs
  simp only [List.length_cons, collapseWsGo, h, if_true]
  exact congrArg _ (collapseWsGo_congr _ _ (List.dropWhile_sublist pyIsSpace).length_le _ le_rfl)

theorem collapseWs_cons_not_ws {c : Char} (r : List Char) (h : pyIsSpace c = false) :
    collapseWs (c :: r) = c :: collapseWs r := by
  unfold collapseWs
  simp only [List.length_cons, collapseWsGo]
  simp [h]

theorem afterGt_length {l r : List Char} (h : afterGt l = some r) :
    r.length < l.length := by
  induction l with
  | nil => simp [afterGt] at h
  | cons c t ih =>
    by_cases hc : c = '>'
    · simp [afterGt, hc] at h
      simp [← h]
    · simp [afterGt, hc] at h
      exact Nat.lt_succ_of_lt (ih h)

theorem tagRem_length {l r : List Char} (h : tagRem l = some r) :
    r.length < l.length := by
  match l with
  | [] => simp [tagRem] at h
  | c :: t =>
    by_cases hc : c = '/'
    · match t with
      | [] => simp [tagRem, hc] at h
      | c2 :: r2 =>
        by_cases hn : isNameChar c2
        · simp [tagRem, hc, hn] at h
          have := afterGt_length h
          simp only [List.length_cons]
          omega
        · simp [tagRem, hc, hn] at h
    · by_cases hn : isNameChar c
      · simp [tagRem, hc, hn] at h
        have := afterGt_length h
        simp only [List.length_cons]
        omega
      · simp [tagRem, hc, hn] at h

theorem removeTagsGo_congr :
    ∀ (f : Nat) (l : List Char), l.length ≤ f → ∀ (g : Nat), l.length ≤ g →
      removeTagsGo f l = removeTagsGo g l := by
  intro f
  induction f with
  | zero =>
    intro l hl g _
    match l, hl with
    | [], _ => cases g <;> rfl
  | succ f ih =>
    intro l hl g hg
    match l with
    | [] => cases g <;> rfl
    | c :: rest =>
      match g with
      | 0 => exact absurd hg (by simp)
      | g + 1 =>
        simp only [removeTagsGo]
        simp only [List.length_cons] at hl hg
        cases htr : (if c = '<' then tagRem rest else Option.none) with
        | some rem =>
          have hlen : rem.length < rest.length := by
            by_cases hc : c = '<'
            · rw [if_pos hc] at htr; exact tagRem_length htr
            · rw [if_neg hc] at htr; cases htr
          exact ih rem (by omega) g (by omega)
        | none =>
          exact congrArg _ (ih rest (by omega) g (by omega))

theorem removeTags_nil : removeTags [] = [] := rfl

theorem removeTags_cons_ne {c : Char} (rest : List Char) (h : c ≠ '<') :
    removeTags (c :: rest) = c :: removeTags rest := by
  unfold removeTags
  simp only [List.length_cons, removeTagsGo, if_neg h]

theorem removeTags_cons_lt_some {rest rem : List Char}
    (h : tagRem rest = some rem) :
    removeTags ('<' :: rest) = removeTags rem := by
  unfold removeTags
  simp only [List.length_cons, removeTagsGo, if_pos rfl, h]
  exact removeTagsGo_congr _ _ (Nat.le_of_lt (tagRem_length h)) _ le_rfl

theorem removeTags_cons_lt_none {rest : List Char}
    (h : tagRem rest = Option.none) :
    removeTags ('<' :: rest) = '<' :: removeTags rest := by
  unfold removeTags
  simp only [List.length_cons, removeTagsGo, if_pos rfl, h]
  rfl

theorem itemSet_self (it : Item) (k : String) (v : PyVal) :
    itemSet it k v k = some v := by
  simp [itemSet]

theorem itemSet_ne (it : Item) (k : String) (v : PyVal) {q : String}
    (h : q ≠ k) : itemSet it k v q = it q := by
  simp [itemSet, h]

theorem foldl_item_preserve {α : Type} (step : Item → (String × α) → Item)
    (q : String) :
    ∀ (l : List (String × α)) (it : Item),
      (∀ acc kv, kv ∈ l → step acc kv q = acc q) →
      (l.foldl step it) q = it q := by
  intro l
  induction l with
  | nil => intro it _; rfl
  | cons kv t ih =>
    intro it hstep
    simp only [List.foldl_cons]
    rw [ih _ (fun acc kv2 hm => hstep acc kv2 (List.mem_cons_of_mem _ hm))]
    exact hstep it kv (List.mem_cons_self _ _)

theorem assignIfSome_ne (it : Item) (k : String) (o : Option PyVal)
    {q : String} (h : q ≠ k) : assignIfSome it k o q = it q := by
  cases o with
  | none => rfl
  | some v => exact itemSet_ne _ _ _ h

theorem assignIfSome_self (it : Item) (k : String) (o : Option PyVal) :
    assignIfSome it k o k =
      (match o with | some v => some v | Option.none => it k) := by
  cases o with
  | none => rfl
  | some v => exact itemSet_self _ _ _

theorem get_next_button_script_ne_empty (a b : String) :
    get_next_button_script a b ≠ "" := by
  intro h
  have hl := congrArg String.length h
  rw [show ("" : String).length = 0 from rfl] at hl
  simp only [get_next_button_script, String.length_append] at hl
  have h1 :
      0 < ("\n            const firstCardBefore = document.querySelector(" :
        String).length := by decide
  omega

/-!
## Claims
-/

/-- C3: for the price-rule input `"12,345.67 AED"`, the price pipeline
returns the integer 12345 (the first digit run with thousands separators
stripped and the decimal remainder dropped) and the currency pipeline
returns `"AED"` (the leading alphabetic run, because the text contains a
digit). -/
theorem claim_C3_price_currency_format :
    normalize_price (PyVal.str "12,345.67 AED") = some 12345 ∧
    normalize_currency (PyVal.str "12,345.67 AED") = some "AED" :=
  ⟨by decide, by decide⟩

/-- C1 counterexample: the Selenium engine's `_sel_nodes`
(`base_configurable_spider.py`), named by the claim, resolves a
root-anchored xpath (`//a`) against a card sub-node (a parsed `Selector`)
without any rewrite: the query keeps the root-anchored expression and is
not the context-relative `.//a` the claim requires. -/
theorem claim_C1_counterexample :
    sel_nodes_base SelRoot.selectorNode
        (some { xpath := some "//a" }) = SelQuery.xpathQ "//a" ∧
    SelQuery.xpathQ "//a" ≠ SelQuery.xpathQ ("." ++ "//a") :=
  ⟨by decide, by decide⟩

/-- C1 (amended): only the Playwright engine's `_sel_nodes` rewrites a
root-anchored path-query to the context-relative form (`.` prepended)
when the root is a parsed `Selector` sub-node; the Selenium engine's
`_sel_nodes` passes the expression through unchanged for every root. -/
theorem claim_C1_root_anchored_rewrite (e : String)
    (h : pyStartsWith e "//" = true) (root : SelRoot) :
    sel_nodes_pw SelRoot.selectorNode (some { xpath := some e }) =
      SelQuery.xpathQ ("." ++ e) ∧
    sel_nodes_base root (some { xpath := some e }) = SelQuery.xpathQ e := by
  have he : e ≠ "" := by
    intro h0
    rw [h0] at h
    exact absurd h (by decide)
  constructor
  · simp [sel_nodes_pw, truthyOptStr, he, h, SelRoot.isSelector]
  · simp [sel_nodes_base, truthyOptStr, he]

/-- C1 witness: the amended theorem applied at the expression `//a`. -/
theorem claim_C1_witness :
    pyStartsWith "//a" "//" = true ∧
    (sel_nodes_pw SelRoot.selectorNode (some { xpath := some "//a" }) =
       SelQuery.xpathQ ("." ++ "//a") ∧
     sel_nodes_base SelRoot.responseRoot (some { xpath := some "//a" }) =
       SelQuery.xpathQ "//a") :=
  ⟨by decide, claim_C1_root_anchored_rewrite "//a" (by decide) SelRoot.responseRoot⟩

/-- C6 counterexample: a listing whose configured next-button locator
resolves to a disabled control (`_get_one` returns the matched disabled
button's markup) still triggers the Button strategy: `handle_pagination`
issues the script-driven click request and the configured Anchor strategy
(which would yield `/page/2`) is never reached — contradicting the claim
that a disabled control is not attempted and the engine falls through to
the Anchor strategy. -/
theorem claim_C6_counterexample :
    handle_pagination_b
        (fun r =>
          if r.css == some "button.next"
          then some "<button class=\"next\" disabled></button>"
          else if r.css == some "a.next" then some "/page/2" else Option.none)
        { next_button := some { css := some "button.next" },
          next_anchor := some { css := some "a.next" },
          first_card_link_css := some "a.card",
          wait_css := "div.cards" }
        "https://site.example/page/1" 1 =
      [PRequest.buttonClick "https://site.example/page/1"
        (get_next_button_script "button.next" "a.card") 2] := rfl

/-- C6 (amended): `handle_pagination` checks only that the next-button
locator resolves to something (and that the rule carries a css selector):
whenever it resolves — disabled control or not — and the first-card css
is configured, the click request is issued and the Anchor strategy is not
reached; the Anchor strategy runs exactly when the button locator
resolves to nothing. -/
theorem claim_C6_button_presence_only (selGet : Rule → Option String)
    (cfg : PaginationCfg) (respUrl : String) (page_num : Nat) (br : Rule)
    (hbr : cfg.next_button = some br)
    (hres : truthyOptStr (selGet br) = true)
    (hcss : truthyOptStr br.css = true)
    (hfcc : cfg.first_card_link_css.getD "" ≠ "") :
    handle_pagination_b selGet cfg respUrl page_num =
      [PRequest.buttonClick respUrl
        (get_next_button_script (br.css.getD "") (cfg.first_card_link_css.getD ""))
        (page_num + 1)] ∧
    ∀ selGet2 : Rule → Option String, truthyOptStr (selGet2 br) = false →
      handle_pagination_b selGet2 cfg respUrl page_num =
        (match cfg.next_anchor with
         | some ar =>
           match build_next_anchor_request_b selGet2 page_num ar with
           | some r => [r]
           | Option.none => []
         | Option.none => []) := by
  have hbcss : br.css.getD "" ≠ "" := by
    cases hc : br.css with
    | none => rw [hc] at hcss; exact absurd hcss (by decide)
    | some s =>
      rw [hc] at hcss
      simpa [truthyOptStr] using hcss
  constructor
  · simp only [handle_pagination_b, hbr, hres, hcss, Bool.and_self, if_true,
      build_next_button_request_b, hfcc, hbcss, if_false,
      get_next_button_script_ne_empty]
    simp [get_next_button_script_ne_empty]
  · intro selGet2 hres2
    simp only [handle_pagination_b, hbr, hres2, Bool.false_and]
    simp

/-- C6 witness: the amended theorem applied to a concrete config whose
button locator resolves (to a disabled control) and to one whose locator
resolves to nothing. -/
theorem claim_C6_witness :
    (({ next_button := some { css := some "button.next" },
        next_anchor := some { css := some "a.next" },
        first_card_link_css := some "a.card",
        wait_css := "div.cards" } : PaginationCfg).next_button =
      some { css := some "button.next" } ∧
     truthyOptStr ((fun r : Rule =>
        if r.css == some "button.next"
        then some "<button disabled></button>" else Option.none)
          { css := some "button.next" }) = true) ∧
    handle_pagination_b
        (fun r : Rule =>
          if r.css == some "button.next"
          then some "<button disabled></button>" else Option.none)
        { next_button := some { css := some "button.next" },
          next_anchor := some { css := some "a.next" },
          first_card_link_css := some "a.card",
          wait_css := "div.cards" }
        "https://site.example/p/1" 3 =
      [PRequest.buttonClick "https://site.example/p/1"
        (get_next_button_script "button.next" "a.card") 4] :=
  ⟨⟨rfl, by decide⟩,
   (claim_C6_button_presence_only _ _ "https://site.example/p/1" 3
      { css := some "button.next" } rfl (by decide) (by decide) (by decide)).1⟩

/-- C7: for a render request against a healthy session, a
session-invalidity signal causes exactly one retry of the same fetch with
a freshly created session (one `_recreate_driver` call, the retry's
result returned); a second consecutive session-invalidity failure is
propagated as an error; a readiness-timeout signal is propagated
immediately, without marking the session failed and without recreating
it. -/
theorem claim_C7_session_recovery (backend : Nat → FetchOutcome)
    (st : DriverState) (html : String)
    (hlive : st.driver_live = true) (hfail : st.driver_failed = false) :
    (backend 0 = FetchOutcome.invalidSession →
      backend 1 = FetchOutcome.success html →
      process_request true backend st =
        (MwResult.htmlResponse html,
         { driver_live := true, driver_failed := false,
           recreations := st.recreations + 1 })) ∧
    (backend 0 = FetchOutcome.invalidSession →
      backend 1 = FetchOutcome.invalidSession →
      (process_request true backend st).1 =
        MwResult.raised FetchError.invalidSession) ∧
    (backend 0 = FetchOutcome.timeoutSignal →
      process_request true backend st =
        (MwResult.raised FetchError.timeoutSignal, st)) := by
  refine ⟨?_, ?_, ?_⟩
  · intro h0 h1
    simp [process_request, prepare_driver, recreate_driver, hlive, hfail, h0, h1]
  · intro h0 h1
    simp [process_request, prepare_driver, recreate_driver, hlive, hfail, h0, h1]
  · intro h0
    simp [process_request, prepare_driver, hlive, hfail, h0]

/-- C7 witness: the theorem applied to concrete backends (invalid then
success; invalid twice; timeout) from the initial healthy state. -/
theorem claim_C7_witness :
    (({} : DriverState).driver_live = true ∧
     ({} : DriverState).driver_failed = false) ∧
    process_request true
        (fun n => if n = 0 then FetchOutcome.invalidSession
                  else FetchOutcome.success "ok") {} =
      (MwResult.htmlResponse "ok",
       { driver_live := true, driver_failed := false, recreations := 1 }) ∧
    (process_request true (fun _ => FetchOutcome.invalidSession) {}).1 =
      MwResult.raised FetchError.invalidSession ∧
    process_request true (fun _ => FetchOutcome.timeoutSignal) {} =
      (MwResult.raised FetchError.timeoutSignal, {}) :=
  ⟨⟨rfl, rfl⟩,
   (claim_C7_session_recovery _ {} "ok" rfl rfl).1 rfl rfl,
   (claim_C7_session_recovery _ {} "ok" rfl rfl).2.1 rfl rfl,
   (claim_C7_session_recovery _ {} "ok" rfl rfl).2.2 rfl⟩

/-- C10: a listing card whose detail-link locator resolves to nothing (or
to a string that is empty after trimming) contributes no detail request
— so no record can ever be emitted for it, records being produced only by
the detail callback of a queued request — and the page's output is
exactly that of the same page without the card: every other card is still
processed, in order, and pagination is unaffected. -/
theorem claim_C10_missing_href_skips_card (urljoin : String → String → String)
    (selGet : Rule → Option String) (cfg : PaginationCfg) (respUrl : String)
    (page_num : Nat) (before after : List Card) (bad : Card)
    (hbad : bad.href_one = Option.none ∨
      ∃ h, bad.href_one = some h ∧ pyStripS h = "") :
    parse_yield_b urljoin selGet cfg respUrl page_num (before ++ bad :: after) =
      parse_yield_b urljoin selGet cfg respUrl page_num (before ++ after) := by
  unfold parse_yield_b
  refine Prod.ext ?_ rfl
  simp only [parse_card_requests_b, List.filterMap_append, List.filterMap_cons]
  rcases hbad with hnone | ⟨h, hsome, hstrip⟩
  · simp [extract_card_href_b, hnone]
  · by_cases hne : h = ""
    · subst hne
      simp [extract_card_href_b, hsome]
    · simp [extract_card_href_b, hsome, hne, hstrip]

/-- C10 witness: the theorem applied to a concrete page with a good card,
a card whose href is whitespace, and another good card. -/
theorem claim_C10_witness :
    (({ href_one := some "  ", title_one := some "Bad" } : Card).href_one =
        Option.none ∨
      ∃ h, ({ href_one := some "  ", title_one := some "Bad" } : Card).href_one =
          some h ∧ pyStripS h = "") ∧
    parse_yield_b (fun b r => b ++ r) (fun _ => Option.none) {} "https://l/p1" 1
        [{ href_one := some "/d/1", title_one := some "A" },
         { href_one := some "  ", title_one := some "Bad" },
         { href_one := some "/d/2", title_one := some "B" }] =
      parse_yield_b (fun b r => b ++ r) (fun _ => Option.none) {} "https://l/p1" 1
        [{ href_one := some "/d/1", title_one := some "A" },
         { href_one := some "/d/2", title_one := some "B" }] :=
  ⟨Or.inr ⟨"  ", rfl, by decide⟩,
   claim_C10_missing_href_skips_card (fun b r => b ++ r) (fun _ => Option.none)
     {} "https://l/p1" 1
     [{ href_one := some "/d/1", title_one := some "A" }]
     [{ href_one := some "/d/2", title_one := some "B" }]
     { href_one := some "  ", title_one := some "Bad" }
     (Or.inr ⟨"  ", rfl, by decide⟩)⟩

/-- C9: the internal carried key `_listing_base` (stashed into the partial
listing-fields dict by `extract_card_listing_fields` whenever any listing
field is extracted) never reaches the emitted record: both merge stages
pop it before copying listing fields, so the item's `_listing_base` entry
is exactly what it was before the merge (absent on a fresh item) for
every carried dict. -/
theorem claim_C9_listing_base_never_copied :
    (∀ (urljoin : String → String → String) (respUrl : String)
        (lf : List (String × PyVal)) (it : Item),
        populate_listing_fields_b urljoin respUrl lf it "_listing_base" =
          it "_listing_base") ∧
    (∀ (process : String → Option Rule → PyVal → PyVal)
        (listing_rules : List (String × Rule)) (lf : List (String × PyVal))
        (it : Item),
        populate_listing_fields_pw process listing_rules lf it "_listing_base" =
          it "_listing_base") := by
  constructor
  · intro urljoin respUrl lf it
    unfold populate_listing_fields_b
    rw [foldl_item_preserve]
    · dsimp only
      repeat' split
      all_goals
        rw [assignIfSome_ne _ _ _ (by decide), assignIfSome_ne _ _ _ (by decide),
          assignIfSome_ne _ _ _ (by decide), assignIfSome_ne _ _ _ (by decide)]
    · intro acc kv hm
      have hne : kv.1 ≠ "_listing_base" := by
        have := List.of_mem_filter hm
        simpa using this
      by_cases hres : kv.1 ∈ reservedKeys
      · simp [hres]
      · simp only [hres, if_false]
        exact assignIfSome_ne _ _ _ (Ne.symm hne)
  · intro process listing_rules lf it
    unfold populate_listing_fields_pw
    rw [foldl_item_preserve]
    · dsimp only
      repeat' split
      all_goals
        rw [assignIfSome_ne _ _ _ (by decide), assignIfSome_ne _ _ _ (by decide),
          assignIfSome_ne _ _ _ (by decide), assignIfSome_ne _ _ _ (by decide)]
    · intro acc kv hm
      have hne : kv.1 ≠ "_listing_base" := by
        have := List.of_mem_filter hm
        simpa using this
      by_cases hres : kv.1 ∈ reservedKeys
      · simp [hres]
      · simp only [hres, if_false]
        by_cases hc : pyIsNone (process kv.1 (lookupRule kv.1 listing_rules) kv.2)
        · simp [hc]
        · simp only [hc, Bool.not_false, if_true]
          exact itemSet_ne _ _ _ (Ne.symm hne)

/-- The selector-engine queries `populate_generic_fields` issues are
exactly the non-reserved fields without a `default_value` key, in
order. -/
theorem populate_generic_pw_queries (process : String → Option Rule → PyVal → PyVal)
    (gOne : Rule → Option String) (fields : List (String × Rule)) (it : Item) :
    (populate_generic_fields_pw process gOne fields it).2 =
      (fields.filter (fun kr =>
        !decide (kr.1 ∈ reservedKeys) && !kr.2.default_value.isSome)).map
        Prod.fst := by
  unfold populate_generic_fields_pw
  suffices h : ∀ (l : List (String × Rule)) (p : Item × List String),
      (l.foldl
        (fun acc kr =>
          if kr.1 ∈ reservedKeys then acc
          else if kr.2.default_value.isSome then
            (itemSet acc.1 kr.1 (kr.2.default_value.getD PyVal.none), acc.2)
          else
            let val := gOne kr.2
            let cleaned := process kr.1 (some kr.2) (pyOfOptStr val)
            (if !pyIsNone cleaned then itemSet acc.1 kr.1 cleaned else acc.1,
             acc.2 ++ [kr.1]))
        p).2 =
        p.2 ++ (l.filter (fun kr =>
          !decide (kr.1 ∈ reservedKeys) && !kr.2.default_value.isSome)).map
          Prod.fst by
    simpa using h fields (it, [])
  intro l
  induction l with
  | nil => intro p; simp
  | cons kr t ih =>
    intro p
    simp only [List.foldl_cons, List.filter_cons]
    by_cases h1 : kr.1 ∈ reservedKeys
    · rw [ih]
      simp [h1]
    · by_cases h2 : kr.2.default_value.isSome
      · rw [ih]
        simp [h1, h2]
      · rw [ih]
        simp [h1, h2]

/-- C5 counterexample: a description rule carrying a `default_value` key
set to null (`default_value: null` in the JSON) does not short-circuit:
`populate_description` of the Playwright spider treats a null default as
absent (`rule.get("default_value") is not None`) and proceeds to query
the Selector Engine (instrumented flag `true`), contradicting the claim
that a rule with `defaultValue` set — for any value, including null —
never invokes the Selector Engine. -/
theorem claim_C5_counterexample :
    (populate_description_pw (fun _ _ v => v)
        (fun _ => some "<div>fallback text</div>") (fun _ => [])
        [("description",
          { css := some "div.desc", default_value := some PyVal.none })]
        emptyItem).2 = true := rfl

/-- C5 (amended): in the generic-field path, a rule whose `default_value`
key is present — with any value, including null — short-circuits
extraction and the Selector Engine is never invoked for that field; in
the description path, only a non-null `default_value` short-circuits,
while a null default falls through to a locator lookup. -/
theorem claim_C5_default_short_circuit
    (process : String → Option Rule → PyVal → PyVal)
    (gOne : Rule → Option String) (gAll : Rule → List String)
    (fields : List (String × Rule)) (it : Item) :
    (∀ key rule, (key, rule) ∈ fields → rule.default_value.isSome = true →
      (fields.map Prod.fst).Nodup →
      key ∉ (populate_generic_fields_pw process gOne fields it).2) ∧
    (∀ rule, lookupRule "description" fields = some rule →
      (!pyIsNone (rule.default_value.getD PyVal.none)) = true →
      (populate_description_pw process gOne gAll fields it).2 = false) ∧
    (∀ rule, lookupRule "description" fields = some rule →
      rule.default_value = some PyVal.none →
      (populate_description_pw process gOne gAll fields it).2 = true) := by
  refine ⟨?_, ?_, ?_⟩
  · intro key rule hmem hdef hnodup hin
    rw [populate_generic_pw_queries] at hin
    obtain ⟨kr2, hf, hfst⟩ := List.mem_map.mp hin
    obtain ⟨hmem2, hcond⟩ := List.mem_filter.mp hf
    have hkeys : (key, rule).1 = kr2.1 := by rw [hfst]
    have heqp := List.inj_on_of_nodup_map hnodup hmem hmem2 hkeys
    rw [← heqp] at hcond
    simp [hdef] at hcond
  · intro rule hl hdef
    unfold populate_description_pw
    rw [hl]
    simp [hdef]
  · intro rule hl hdef
    unfold populate_description_pw
    rw [hl]
    dsimp only
    rw [hdef]
    simp [pyIsNone]

/-- C5 witness: the amended theorem applied to a concrete field set with
a defaulted generic field (no query for it), a non-null-defaulted
description (no query), and a null-defaulted description (queried). -/
theorem claim_C5_witness :
    (("year",
        ({ css := some "span.year", default_value := some (PyVal.int 2020) } :
          Rule)) ∈
        [("year",
          ({ css := some "span.year", default_value := some (PyVal.int 2020) } :
            Rule)),
         ("location", ({ css := some "span.loc" } : Rule))] ∧
      ({ css := some "span.year", default_value := some (PyVal.int 2020) } :
        Rule).default_value.isSome = true) ∧
    "year" ∉
      (populate_generic_fields_pw (fun _ _ v => v) (fun _ => some "x")
        [("year",
          { css := some "span.year", default_value := some (PyVal.int 2020) }),
         ("location", { css := some "span.loc" })] emptyItem).2 ∧
    (populate_description_pw (fun _ _ v => v) (fun _ => some "x") (fun _ => [])
      [("description",
        { css := some "div.desc", default_value := some (PyVal.str "canned") })]
      emptyItem).2 = false ∧
    (populate_description_pw (fun _ _ v => v) (fun _ => some "x") (fun _ => [])
      [("description",
        { css := some "div.desc", default_value := some PyVal.none })]
      emptyItem).2 = true :=
  ⟨⟨List.mem_cons_self _ _, rfl⟩,
   (claim_C5_default_short_circuit (fun _ _ v => v) (fun _ => some "x")
       (fun _ => []) _ emptyItem).1 "year" _ (List.mem_cons_self _ _) rfl
     (by decide),
   (claim_C5_default_short_circuit (fun _ _ v => v) (fun _ => some "x")
       (fun _ => []) _ emptyItem).2.1 _ rfl (by decide),
   (claim_C5_default_short_circuit (fun _ _ v => v) (fun _ => some "x")
       (fun _ => []) _ emptyItem).2.2 _ rfl rfl⟩

theorem isDataImageB64_implies_prefix (s : String)
    (h : isDataImageB64 s = true) : pyStartsWith s "data:image/" = true := by
  by_cases hp : pyStartsWith s "data:image/"
  · exact hp
  · unfold isDataImageB64 at h
    simp [hp] at h

theorem filterMap_as_filter_map {α β : Type} (f : α → Option β)
    (p : α → Bool) (g : α → β) :
    ∀ l : List α, (∀ a ∈ l, f a = if p a then some (g a) else Option.none) →
      l.filterMap f = (l.filter p).map g := by
  intro l
  induction l with
  | nil => intro _; rfl
  | cons a t ih =>
    intro hf
    rw [List.filterMap_cons, List.filter_cons,
      hf a (List.mem_cons_self _ _),
      ih (fun x hx => hf x (List.mem_cons_of_mem _ hx))]
    by_cases hp : p a
    · simp [hp]
    · simp [hp]

theorem normalize_images_spec (join : String → String) (values : List String) :
    normalize_images join (pyStrList values) =
      (values.filter keptImageEntry).map (fun s => join (pyStripS s)) := by
  unfold normalize_images
  rw [show imageRawList (pyStrList values) = values.map PyVal.str from rfl,
    List.filterMap_map]
  apply filterMap_as_filter_map
  intro s _
  dsimp only [Function.comp]
  by_cases h1 : pyStripS s = ""
  · simp [h1, keptImageEntry]
  · by_cases h2 : pyStartsWith (pyStripS s) "data:image/"
    · simp [h1, h2, keptImageEntry]
    · simp [h1, h2, keptImageEntry]

theorem normalize_image_core_spec (join : String → String)
    (values : List String)
    (hmix : ∀ s ∈ values, pyStartsWith (pyStripS s) "data:image/" = true →
      isDataImageB64 (pyStripS s) = true) :
    normalize_image_core join (pyStrList values) =
      (values.filter keptImageEntry).map (fun s => join (pyStripS s)) := by
  unfold normalize_image_core
  rw [show imageRawList (pyStrList values) = values.map PyVal.str from rfl,
    List.filterMap_map]
  apply filterMap_as_filter_map
  intro s hs
  dsimp only [Function.comp]
  by_cases h1 : pyStripS s = ""
  · simp [h1, keptImageEntry]
  · by_cases h2 : isDataImageB64 (pyStripS s)
    · have hpre := isDataImageB64_implies_prefix _ h2
      simp [h1, h2, hpre, keptImageEntry]
    · have hpre : pyStartsWith (pyStripS s) "data:image/" = false := by
        by_cases hp : pyStartsWith (pyStripS s) "data:image/"
        · exact absurd (hmix s hs hp) h2
        · simpa using hp
      simp [h1, h2, hpre, keptImageEntry]

/-- C4: on a list of image URL strings mixing relative paths, absolute
paths and base64 `data:image` URIs (the hypothesis says exactly that
every `data:image/`-prefixed entry is a base64 data URI), both image
normalizers return a list — never null by construction — that drops every
`data:image`-prefixed entry and every entry blank after trimming,
resolves each kept entry against the page base via the join function, and
preserves the relative order of the kept entries. -/
theorem claim_C4_image_normalization (join : String → String)
    (urljoin : String → String → String) (base : PyVal) (values : List String)
    (hmix : ∀ s ∈ values, pyStartsWith (pyStripS s) "data:image/" = true →
      isDataImageB64 (pyStripS s) = true) :
    normalize_images join (pyStrList values) =
      (values.filter keptImageEntry).map (fun s => join (pyStripS s)) ∧
    normalize_image_values urljoin base (pyStrList values) =
      (values.filter keptImageEntry).map
        (fun s =>
          urljoin (if pyTruthy base then pyStr base else "") (pyStripS s)) :=
  ⟨normalize_images_spec join values,
   normalize_image_core_spec _ values hmix⟩

/-- C4 witness: the theorem applied to a concrete mixed list. -/
theorem claim_C4_witness :
    (∀ s ∈ ["/img/a.jpg", "https://cdn.example/b.png", " ",
        "data:image/png;base64,iVBOR"],
      pyStartsWith (pyStripS s) "data:image/" = true →
        isDataImageB64 (pyStripS s) = true) ∧
    normalize_images (fun u => "https://site.example" ++ u)
        (pyStrList ["/img/a.jpg", "https://cdn.example/b.png", " ",
          "data:image/png;base64,iVBOR"]) =
      ["https://site.example/img/a.jpg",
       "https://site.examplehttps://cdn.example/b.png"] ∧
    normalize_image_values (fun b u => b ++ "|" ++ u)
        (PyVal.str "https://site.example/p/1")
        (pyStrList ["/img/a.jpg", "https://cdn.example/b.png", " ",
          "data:image/png;base64,iVBOR"]) =
      ["https://site.example/p/1|/img/a.jpg",
       "https://site.example/p/1|https://cdn.example/b.png"] := by
  refine ⟨by decide, ?_, ?_⟩
  · rw [(claim_C4_image_normalization (fun u => "https://site.example" ++ u)
      (fun b u => b ++ "|" ++ u) (PyVal.str "https://site.example/p/1") _
      (by decide)).1]
    decide
  · rw [(claim_C4_image_normalization (fun u => "https://site.example" ++ u)
      (fun b u => b ++ "|" ++ u) (PyVal.str "https://site.example/p/1") _
      (by decide)).2]
    decide

theorem populate_generic_b_reserved (gOne : Rule → Option String)
    (fields : List (String × Rule)) (it : Item) {q : String}
    (hq : q ∈ reservedKeys) :
    populate_generic_fields_b gOne fields it q = it q := by
  unfold populate_generic_fields_b
  rw [foldl_item_preserve]
  intro acc kv _
  by_cases hres : kv.1 ∈ reservedKeys
  · simp [hres]
  · have hne : q ≠ kv.1 := fun h => hres (h ▸ hq)
    simp only [hres, if_false]
    split
    · exact assignIfSome_ne _ _ _ hne
    · exact assignIfSome_ne _ _ _ hne

theorem populate_images_b_other (join : String → String)
    (gAll : Rule → List String) (fields : List (String × Rule)) (it : Item)
    {q : String} (hq : q ≠ "images") :
    populate_images_b join gAll fields it q = it q :=
  assignIfSome_ne _ _ _ hq

theorem populate_images_b_at (join : String → String)
    (gAll : Rule → List String) (fields : List (String × Rule)) (it : Item) :
    populate_images_b join gAll fields it "images" =
      (if (detail_images_b join gAll fields).isEmpty then it "images"
       else some (pyStrList (detail_images_b join gAll fields))) := by
  unfold populate_images_b
  by_cases h : (detail_images_b join gAll fields).isEmpty
  · simp [h, assignIfSome]
  · simp [h, assignIfSome, itemSet_self]

theorem populate_description_b_other (gOne : Rule → Option String)
    (gAll : Rule → List String) (fields : List (String × Rule)) (it : Item)
    {q : String} (hq : q ≠ "description") :
    populate_description_b gOne gAll fields it q = it q :=
  assignIfSome_ne _ _ _ hq

theorem populate_description_b_at (gOne : Rule → Option String)
    (gAll : Rule → List String) (fields : List (String × Rule)) (it : Item) :
    populate_description_b gOne gAll fields it "description" =
      (match detail_description_b gOne gAll fields with
       | some d => some (PyVal.str d)
       | Option.none => it "description") := by
  unfold populate_description_b
  cases hd : detail_description_b gOne gAll fields with
  | none => simp [hd, assignIfSome]
  | some d => simp [hd, assignIfSome, itemSet_self]

theorem populate_price_b_other (gOne : Rule → Option String)
    (fields : List (String × Rule)) (it : Item) {q : String}
    (hq : q ≠ "price") :
    populate_price_b gOne fields it q = it q :=
  assignIfSome_ne _ _ _ hq

theorem populate_price_b_at (gOne : Rule → Option String)
    (fields : List (String × Rule)) (it : Item) :
    populate_price_b gOne fields it "price" =
      (match detail_price_b gOne fields with
       | some n => some (PyVal.int n)
       | Option.none => it "price") := by
  unfold populate_price_b
  cases hd : detail_price_b gOne fields with
  | none => simp [hd, assignIfSome]
  | some n => simp [hd, assignIfSome, itemSet_self]

theorem populate_currency_b_other (gOne : Rule → Option String)
    (fields : List (String × Rule)) (it : Item) {q : String}
    (hq : q ≠ "currency") :
    populate_currency_b gOne fields it q = it q :=
  assignIfSome_ne _ _ _ hq

theorem populate_currency_b_at (gOne : Rule → Option String)
    (fields : List (String × Rule)) (it : Item) :
    populate_currency_b gOne fields it "currency" =
      (match detail_currency_b gOne fields with
       | some c => some (PyVal.str c)
       | Option.none => it "currency") := by
  unfold populate_currency_b
  cases hd : detail_currency_b gOne fields with
  | none => simp [hd, assignIfSome]
  | some c => simp [hd, assignIfSome, itemSet_self]

/-- C2: in every record `parse_detail` emits, each of the four
multi-stage fields (`images`, `description`, `price`, `currency`) is the
detail-stage value whenever the detail stage produced one (non-null, and
non-empty for the images sequence) — overwriting any listing-carried
value — and is exactly the listing-carried value of the record (the item
state after the listing-carry stage, unchanged) whenever the detail stage
yielded nothing. -/
theorem claim_C2_detail_overwrites_listing (urljoin : String → String → String)
    (gOne : Rule → Option String) (gAll : Rule → List String)
    (respUrl title : String) (lf : List (String × PyVal))
    (fields : List (String × Rule)) :
    (parse_detail_b urljoin gOne gAll respUrl title lf fields "images" =
      (if (detail_images_b (urljoin respUrl) gAll fields).isEmpty
       then listing_stage_item_b urljoin respUrl title lf "images"
       else some (pyStrList (detail_images_b (urljoin respUrl) gAll fields)))) ∧
    (parse_detail_b urljoin gOne gAll respUrl title lf fields "description" =
      (match detail_description_b gOne gAll fields with
       | some d => some (PyVal.str d)
       | Option.none =>
         listing_stage_item_b urljoin respUrl title lf "description")) ∧
    (parse_detail_b urljoin gOne gAll respUrl title lf fields "price" =
      (match detail_price_b gOne fields with
       | some n => some (PyVal.int n)
       | Option.none =>
         listing_stage_item_b urljoin respUrl title lf "price")) ∧
    (parse_detail_b urljoin gOne gAll respUrl title lf fields "currency" =
      (match detail_currency_b gOne fields with
       | some c => some (PyVal.str c)
       | Option.none =>
         listing_stage_item_b urljoin respUrl title lf "currency")) := by
  have e1 : parse_detail_b urljoin gOne gAll respUrl title lf fields =
      populate_currency_b gOne fields
        (populate_price_b gOne fields
          (populate_description_b gOne gAll fields
            (populate_images_b (urljoin respUrl) gAll fields
              (populate_generic_fields_b gOne fields
                (listing_stage_item_b urljoin respUrl title lf))))) := rfl
  refine ⟨?_, ?_, ?_, ?_⟩
  · rw [e1, populate_currency_b_other _ _ _ (by decide),
      populate_price_b_other _ _ _ (by decide),
      populate_description_b_other _ _ _ _ (by decide),
      populate_images_b_at,
      populate_generic_b_reserved _ _ _ (by decide)]
  · rw [e1, populate_currency_b_other _ _ _ (by decide),
      populate_price_b_other _ _ _ (by decide),
      populate_description_b_at,
      populate_images_b_other _ _ _ _ (by decide),
      populate_generic_b_reserved _ _ _ (by decide)]
  · rw [e1, populate_currency_b_other _ _ _ (by decide),
      populate_price_b_at,
      populate_description_b_other _ _ _ _ (by decide),
      populate_images_b_other _ _ _ _ (by decide),
      populate_generic_b_reserved _ _ _ (by decide)]
  · rw [e1, populate_currency_b_at,
      populate_price_b_other _ _ _ (by decide),
      populate_description_b_other _ _ _ _ (by decide),
      populate_images_b_other _ _ _ _ (by decide),
      populate_generic_b_reserved _ _ _ (by decide)]

theorem alpha_not_ws {c : Char} (h : isAsciiAlpha c = true) :
    pyIsSpace c = false := by
  cases hw : pyIsSpace c
  · rfl
  · exfalso
    unfold pyIsSpace at hw
    simp only [Bool.or_eq_true, decide_eq_true_eq] at hw
    rcases hw with ((((((h1 | h1) | h1) | h1) | h1) | h1) | h1) | h1 <;>
      subst h1 <;> exact absurd h (by decide)

theorem alpha_not_digit {c : Char} (h : isAsciiAlpha c = true) :
    pyIsDigit c = false := by
  cases hd : pyIsDigit c
  · rfl
  · exfalso
    unfold pyIsDigit at hd
    simp only [Bool.and_eq_true, decide_eq_true_eq] at hd
    unfold isAsciiAlpha at h
    simp only [Bool.or_eq_true, Bool.and_eq_true, decide_eq_true_eq] at h
    rcases h with ⟨h1, _⟩ | ⟨h1, _⟩
    · exact absurd (le_trans h1 hd.2) (by decide)
    · exact absurd (le_trans h1 hd.2) (by decide)

theorem takeWhile_all {p : Char → Bool} :
    ∀ {l : List Char}, (∀ c ∈ l, p c = true) → l.takeWhile p = l := by
  intro l
  induction l with
  | nil => intro _; rfl
  | cons c r ih =>
    intro h
    rw [List.takeWhile_cons, h c (List.mem_cons_self _ _)]
    simp only [if_true]
    rw [ih (fun x hx => h x (List.mem_cons_of_mem _ hx))]

theorem dropWhile_all_not {p : Char → Bool} {l : List Char}
    (h : ∀ c ∈ l, p c = false) : l.dropWhile p = l := by
  cases l with
  | nil => rfl
  | cons c r =>
    rw [List.dropWhile_cons, h c (List.mem_cons_self _ _)]
    simp

theorem strip_of_not_ws {l : List Char} (h : ∀ c ∈ l, pyIsSpace c = false) :
    pyStripL l = l := by
  unfold pyStripL dropTrailWs
  rw [dropWhile_all_not h,
    dropWhile_all_not (fun c hc => h c (List.mem_reverse.mp hc)),
    List.reverse_reverse]

theorem dropWhile_head_not {p : Char → Bool} :
    ∀ (l : List Char) {c r}, l.dropWhile p = c :: r → p c = false := by
  intro l
  induction l with
  | nil => intro c r h; cases h
  | cons a t ih =>
    intro c r h
    rw [List.dropWhile_cons] at h
    by_cases ha : p a
    · rw [if_pos ha] at h
      exact ih h
    · rw [if_neg ha] at h
      cases h
      simpa using ha

theorem dropTrailWs_decomp (m : List Char) :
    ∃ w, m = dropTrailWs m ++ w ∧ ∀ c ∈ w, pyIsSpace c = true := by
  refine ⟨(m.reverse.takeWhile pyIsSpace).reverse, ?_, ?_⟩
  · unfold dropTrailWs
    conv_lhs =>
      rw [← List.reverse_reverse m,
        ← List.takeWhile_append_dropWhile pyIsSpace m.reverse]
    rw [List.reverse_append]
  · intro c hc
    exact List.mem_takeWhile_imp (List.mem_reverse.mp hc)

theorem dropWhile_dropTrail_self {m : List Char}
    (hm : ∀ {c r}, m = c :: r → pyIsSpace c = false) :
    (dropTrailWs m).dropWhile pyIsSpace = dropTrailWs m := by
  cases h2 : dropTrailWs m with
  | nil => rfl
  | cons c r =>
    have hc : pyIsSpace c = false := by
      obtain ⟨w, hw, _⟩ := dropTrailWs_decomp m
      rw [h2] at hw
      exact hm hw
    rw [List.dropWhile_cons, hc]
    simp

theorem dropTrailWs_idem (m : List Char) :
    dropTrailWs (dropTrailWs m) = dropTrailWs m := by
  show ((dropTrailWs m).reverse.dropWhile pyIsSpace).reverse = dropTrailWs m
  have h1 : (dropTrailWs m).reverse = m.reverse.dropWhile pyIsSpace := by
    unfold dropTrailWs
    rw [List.reverse_reverse]
  rw [h1]
  have h4 : (m.reverse.dropWhile pyIsSpace).dropWhile pyIsSpace =
      m.reverse.dropWhile pyIsSpace := by
    cases h3 : m.reverse.dropWhile pyIsSpace with
    | nil => rfl
    | cons c r =>
      rw [List.dropWhile_cons, dropWhile_head_not _ h3]
      simp
  rw [h4]
  rfl

theorem pyStripL_idem (l : List Char) : pyStripL (pyStripL l) = pyStripL l := by
  unfold pyStripL
  rw [dropWhile_dropTrail_self (fun {c r} hc => dropWhile_head_not l hc)]
  exact dropTrailWs_idem _

theorem firstAlphaRun_spec :
    ∀ {l run : List Char}, firstAlphaRun l = some run →
      run ≠ [] ∧ ∀ c ∈ run, isAsciiAlpha c = true := by
  intro l
  induction l with
  | nil => intro run h; cases h
  | cons c r ih =>
    intro run h
    unfold firstAlphaRun at h
    by_cases hc : isAsciiAlpha c
    · rw [if_pos hc] at h
      cases h
      refine ⟨by simp, ?_⟩
      intro x hx
      rcases List.mem_cons.mp hx with rfl | hx2
      · exact hc
      · exact List.mem_takeWhile_imp hx2
    · rw [if_neg hc] at h
      exact ih h

theorem firstAlphaRun_all {l : List Char} (h1 : l ≠ [])
    (h2 : ∀ c ∈ l, isAsciiAlpha c = true) : firstAlphaRun l = some l := by
  cases l with
  | nil => exact absurd rfl h1
  | cons c r =>
    unfold firstAlphaRun
    rw [if_pos (h2 c (List.mem_cons_self _ _))]
    rw [takeWhile_all (fun x hx => h2 x (List.mem_cons_of_mem _ hx))]

theorem containsDigit_of_alpha {l : List Char}
    (h : ∀ c ∈ l, isAsciiAlpha c = true) : containsDigit l = false := by
  cases hd : containsDigit l
  · rfl
  · exfalso
    unfold containsDigit at hd
    obtain ⟨c, hc, hdig⟩ := List.any_eq_true.mp hd
    exact absurd hdig (by simp [alpha_not_digit (h c hc)])

theorem currencyScan_fixpoint :
    ∀ {cs : List PyVal} {s : String}, currencyScan cs = some s →
      currencyScan [PyVal.str s] = some s := by
  intro cs
  induction cs with
  | nil => intro s h; cases h
  | cons c rest ih =>
    intro s h
    cases c with
    | str s0 =>
      by_cases h0 : pyStripL s0.data = []
      · unfold currencyScan at h
        dsimp only at h
        rw [if_pos h0] at h
        exact ih h
      · by_cases h1 : (containsDigit (pyStripL s0.data) ||
            (2 ≤ (pyStripL s0.data).length && (pyStripL s0.data).length ≤ 3)) = true
        · cases hfa : firstAlphaRun (pyStripL s0.data) with
          | none =>
            unfold currencyScan at h
            dsimp only at h
            rw [if_neg h0, if_pos h1, hfa] at h
            exact ih h
          | some run =>
            unfold currencyScan at h
            dsimp only at h
            rw [if_neg h0, if_pos h1, hfa] at h
            injection h with h
            subst h
            obtain ⟨hne, halpha⟩ := firstAlphaRun_spec hfa
            have hstrip : pyStripL (String.mk run).data = run :=
              strip_of_not_ws (fun x hx => alpha_not_ws (halpha x hx))
            unfold currencyScan
            dsimp only
            rw [hstrip]
            rw [if_neg hne]
            rw [containsDigit_of_alpha halpha]
            by_cases hlen : (2 ≤ run.length && run.length ≤ 3) = true
            · simp only [Bool.false_or, hlen, if_true]
              rw [firstAlphaRun_all hne halpha]
            · simp only [Bool.false_or, hlen]
              simp only [Bool.false_eq_true, if_false]
        · unfold currencyScan at h
          dsimp only at h
          rw [if_neg h0, if_neg h1] at h
          injection h with h
          subst h
          have hstrip : pyStripL (String.mk (pyStripL s0.data)).data =
              pyStripL s0.data := by
            rw [show (String.mk (pyStripL s0.data)).data = pyStripL s0.data from rfl]
            exact pyStripL_idem s0.data
          unfold currencyScan
          dsimp only
          rw [pyStripL_idem s0.data]
          rw [if_neg h0, if_neg h1]
    | none =>
      unfold currencyScan at h
      exact ih h
    | int n =>
      unfold currencyScan at h
      exact ih h
    | list xs =>
      unfold currencyScan at h
      exact ih h

theorem normalize_currency_idem (x : PyVal) :
    normalize_currency (pyOfOpt (normalize_currency x)) =
      normalize_currency x := by
  cases hx : normalize_currency x with
  | none => rfl
  | some s =>
    have hs : currencyScan [PyVal.str s] = some s := by
      cases x with
      | none => exact absurd hx (by simp [normalize_currency])
      | str s2 => exact currencyScan_fixpoint hx
      | int n => exact currencyScan_fixpoint hx
      | list xs => exact currencyScan_fixpoint hx
    exact hs

theorem afterGt_eq_none_iff {l : List Char} :
    afterGt l = Option.none ↔ ∀ c ∈ l, c ≠ '>' := by
  induction l with
  | nil => simp [afterGt]
  | cons c r ih =>
    by_cases hc : c = '>'
    · subst hc
      simp [afterGt]
    · simp only [afterGt, if_neg hc, ih, List.mem_cons]
      constructor
      · intro h x hx
        rcases hx with rfl | hx2
        · exact hc
        · exact h x hx2
      · intro h x hx
        exact h x (Or.inr hx)

theorem tagRem_cons_slash_name {c2 : Char} {r2 : List Char}
    (hn : isNameChar c2 = true) :
    tagRem ('/' :: c2 :: r2) = afterGt r2 := by
  simp [tagRem, hn]

theorem tagRem_cons_slash_notname {c2 : Char} {r2 : List Char}
    (hn : isNameChar c2 = false) :
    tagRem ('/' :: c2 :: r2) = Option.none := by
  simp [tagRem, hn]

theorem tagRem_cons_name {c : Char} {r : List Char} (hc : c ≠ '/')
    (hn : isNameChar c = true) : tagRem (c :: r) = afterGt r := by
  simp [tagRem, hc, hn]

theorem tagRem_cons_notname {c : Char} {r : List Char} (hc : c ≠ '/')
    (hn : isNameChar c = false) : tagRem (c :: r) = Option.none := by
  simp [tagRem, hc, hn]

theorem not_nameChar_cases {c : Char} (hn : isNameChar c = false) :
    c = ' ' ∨ c = '>' ∨ c = '/' := by
  unfold isNameChar at hn
  simp only [Bool.not_eq_false', Bool.or_eq_true, decide_eq_true_eq] at hn
  tauto

theorem nameChar_ne_gt {c : Char} (hn : isNameChar c = true) : c ≠ '>' := by
  intro h
  subst h
  exact absurd hn (by decide)

theorem tagRem_none_of_noGt {l : List Char} (h : ∀ c ∈ l, c ≠ '>') :
    tagRem l = Option.none := by
  match l with
  | [] => rfl
  | c :: r =>
    by_cases hc : c = '/'
    · subst hc
      match r with
      | [] => rfl
      | c2 :: r2 =>
        by_cases hn : isNameChar c2
        · rw [tagRem_cons_slash_name hn, afterGt_eq_none_iff]
          intro x hx
          exact h x (by simp [hx])
        · exact tagRem_cons_slash_notname (by simpa using hn)
    · by_cases hn : isNameChar c
      · rw [tagRem_cons_name hc hn, afterGt_eq_none_iff]
        intro x hx
        exact h x (List.mem_cons_of_mem _ hx)
      · exact tagRem_cons_notname hc (by simpa using hn)

theorem removeTags_of_noGt {l : List Char} (h : ∀ c ∈ l, c ≠ '>') :
    removeTags l = l := by
  induction l with
  | nil => exact removeTags_nil
  | cons c r ih =>
    have hr : ∀ x ∈ r, x ≠ '>' := fun x hx => h x (List.mem_cons_of_mem _ hx)
    by_cases hc : c = '<'
    · subst hc
      rw [removeTags_cons_lt_none (tagRem_none_of_noGt hr), ih hr]
    · rw [removeTags_cons_ne _ hc, ih hr]

theorem noTagB_cons (c : Char) (rest : List Char) :
    noTagB (c :: rest) =
      ((if c = '<' then (tagRem rest).isNone else true) && noTagB rest) := rfl

theorem noTagB_tail {c : Char} {rest : List Char}
    (h : noTagB (c :: rest) = true) : noTagB rest = true := by
  rw [noTagB_cons, Bool.and_eq_true] at h
  exact h.2

theorem tagRem_none_removeTags {l : List Char} (h : tagRem l = Option.none) :
    tagRem (removeTags l) = Option.none := by
  match l with
  | [] => rw [removeTags_nil]; rfl
  | c :: r =>
    by_cases hc : c = '/'
    · subst hc
      match r with
      | [] =>
        rw [removeTags_cons_ne _ (by decide), removeTags_nil]
        exact h
      | c2 :: r2 =>
        by_cases hn : isNameChar c2
        · have hag : afterGt r2 = Option.none := by
            rw [tagRem_cons_slash_name hn] at h
            exact h
          have hgt : ∀ x ∈ ('/' :: c2 :: r2 : List Char), x ≠ '>' := by
            intro x hx
            rcases List.mem_cons.mp hx with rfl | hx2
            · decide
            · rcases List.mem_cons.mp hx2 with rfl | hx3
              · exact nameChar_ne_gt hn
              · exact afterGt_eq_none_iff.mp hag x hx3
          rw [removeTags_of_noGt hgt]
          exact h
        · rw [removeTags_cons_ne _ (by decide)]
          rcases not_nameChar_cases (by simpa using hn) with rfl | rfl | rfl
          · rw [removeTags_cons_ne _ (by decide)]
            rfl
          · rw [removeTags_cons_ne _ (by decide)]
            rfl
          · rw [removeTags_cons_ne _ (by decide)]
            rfl
    · by_cases hn : isNameChar c
      · have hag : afterGt r = Option.none := by
          rw [tagRem_cons_name hc hn] at h
          exact h
        have hgt : ∀ x ∈ (c :: r : List Char), x ≠ '>' := by
          intro x hx
          rcases List.mem_cons.mp hx with rfl | hx2
          · exact nameChar_ne_gt hn
          · exact afterGt_eq_none_iff.mp hag x hx2
        rw [removeTags_of_noGt hgt]
        exact h
      · rcases not_nameChar_cases (by simpa using hn) with rfl | rfl | rfl
        · rw [removeTags_cons_ne _ (by decide)]
          rfl
        · rw [removeTags_cons_ne _ (by decide)]
          rfl
        · exact absurd rfl hc

theorem noTagB_removeTags_aux :
    ∀ (n : Nat) (l : List Char), l.length ≤ n →
      noTagB (removeTags l) = true := by
  intro n
  induction n with
  | zero =>
    intro l hl
    match l, hl with
    | [], _ => rw [removeTags_nil]; rfl
  | succ n ih =>
    intro l hl
    match l with
    | [] => rw [removeTags_nil]; rfl
    | c :: rest =>
      simp only [List.length_cons] at hl
      by_cases hc : c = '<'
      · subst hc
        cases htr : tagRem rest with
        | some rem =>
          rw [removeTags_cons_lt_some htr]
          have := tagRem_length htr
          exact ih rem (by omega)
        | none =>
          rw [removeTags_cons_lt_none htr, noTagB_cons, if_pos rfl,
            tagRem_none_removeTags htr]
          simp [ih rest (by omega)]
      · rw [removeTags_cons_ne _ hc, noTagB_cons, if_neg hc]
        simp [ih rest (by omega)]

theorem noTagB_removeTags (l : List Char) : noTagB (removeTags l) = true :=
  noTagB_removeTags_aux l.length l le_rfl

theorem removeTags_eq_self_of_noTagB :
    ∀ {l : List Char}, noTagB l = true → removeTags l = l := by
  intro l
  induction l with
  | nil => intro _; exact removeTags_nil
  | cons c rest ih =>
    intro h
    rw [noTagB_cons, Bool.and_eq_true] at h
    by_cases hc : c = '<'
    · subst hc
      rw [if_pos rfl] at h
      rw [removeTags_cons_lt_none (Option.isNone_iff_eq_none.mp h.1), ih h.2]
    · rw [removeTags_cons_ne _ hc, ih h.2]

theorem removeTags_idem (l : List Char) :
    removeTags (removeTags l) = removeTags l :=
  removeTags_eq_self_of_noTagB (noTagB_removeTags l)

theorem replNbsp_eq_lt {c : Char} : replNbsp c = '<' ↔ c = '<' := by
  by_cases h : c = '\xa0'
  · subst h
    decide
  · unfold replNbsp
    rw [if_neg h]

theorem replNbsp_eq_gt {c : Char} : replNbsp c = '>' ↔ c = '>' := by
  by_cases h : c = '\xa0'
  · subst h
    decide
  · unfold replNbsp
    rw [if_neg h]

theorem replNbsp_eq_slash {c : Char} : replNbsp c = '/' ↔ c = '/' := by
  by_cases h : c = '\xa0'
  · subst h
    decide
  · unfold replNbsp
    rw [if_neg h]

theorem isNameChar_replNbsp {c : Char} (h : isNameChar (replNbsp c) = true) :
    isNameChar c = true := by
  by_cases hn : c = '\xa0'
  · subst hn
    exact absurd h (by decide)
  · unfold replNbsp at h
    rw [if_neg hn] at h
    exact h

theorem afterGt_map_none {l : List Char} (h : afterGt l = Option.none) :
    afterGt (l.map replNbsp) = Option.none := by
  rw [afterGt_eq_none_iff] at h ⊢
  intro x hx
  obtain ⟨a, ha, he⟩ := List.mem_map.mp hx
  intro hg
  subst hg
  exact h a ha (replNbsp_eq_gt.mp he)

theorem tagRem_none_map {l : List Char} (h : tagRem l = Option.none) :
    tagRem (l.map replNbsp) = Option.none := by
  match l with
  | [] => rfl
  | c :: r =>
    rw [List.map_cons]
    by_cases hs : c = '/'
    · subst hs
      rw [show replNbsp '/' = '/' from rfl]
      match r with
      | [] => rfl
      | c2 :: r2 =>
        rw [List.map_cons]
        by_cases hn2 : isNameChar (replNbsp c2)
        · have hn2' := isNameChar_replNbsp hn2
          rw [tagRem_cons_slash_name hn2]
          have hag : afterGt r2 = Option.none := by
            rw [tagRem_cons_slash_name hn2'] at h
            exact h
          exact afterGt_map_none hag
        · exact tagRem_cons_slash_notname (by simpa using hn2)
    · have hs2 : replNbsp c ≠ '/' := fun he => hs (replNbsp_eq_slash.mp he)
      by_cases hn : isNameChar (replNbsp c)
      · have hn' := isNameChar_replNbsp hn
        rw [tagRem_cons_name hs2 hn]
        have hag : afterGt r = Option.none := by
          rw [tagRem_cons_name hs hn'] at h
          exact h
        exact afterGt_map_none hag
      · exact tagRem_cons_notname hs2 (by simpa using hn)

theorem noTagB_map {l : List Char} (h : noTagB l = true) :
    noTagB (l.map replNbsp) = true := by
  induction l with
  | nil => rfl
  | cons c r ih =>
    rw [List.map_cons, noTagB_cons, Bool.and_eq_true]
    refine ⟨?_, ih (noTagB_tail h)⟩
    by_cases hc : c = '<'
    · subst hc
      rw [show replNbsp '<' = '<' from rfl, if_pos rfl]
      rw [noTagB_cons, Bool.and_eq_true, if_pos rfl] at h
      rw [tagRem_none_map (Option.isNone_iff_eq_none.mp h.1)]
      rfl
    · rw [if_neg (fun he => hc (replNbsp_eq_lt.mp he))]

theorem collapseWs_mem_aux :
    ∀ (n : Nat) (l : List Char), l.length ≤ n →
      ∀ x ∈ collapseWs l, x = ' ' ∨ (x ∈ l ∧ pyIsSpace x = false) := by
  intro n
  induction n with
  | zero =>
    intro l hl
    match l, hl with
    | [], _ => intro x hx; cases hx
  | succ n ih =>
    intro l hl
    match l with
    | [] => intro x hx; cases hx
    | c :: r =>
      simp only [List.length_cons] at hl
      intro x hx
      by_cases hc : pyIsSpace c
      · rw [collapseWs_cons_ws _ hc] at hx
        rcases List.mem_cons.mp hx with rfl | hx2
        · exact Or.inl rfl
        · have hlen : (r.dropWhile pyIsSpace).length ≤ n := by
            have := (List.dropWhile_sublist pyIsSpace (l := r)).length_le
            omega
          rcases ih _ hlen x hx2 with h1 | ⟨h2, h3⟩
          · exact Or.inl h1
          · exact Or.inr ⟨List.mem_cons_of_mem _
              ((List.dropWhile_sublist pyIsSpace).mem h2), h3⟩
      · rw [collapseWs_cons_not_ws _ (by simpa using hc)] at hx
        rcases List.mem_cons.mp hx with rfl | hx2
        · exact Or.inr ⟨List.mem_cons_self _ _, by simpa using hc⟩
        · rcases ih r (by omega) x hx2 with h1 | ⟨h2, h3⟩
          · exact Or.inl h1
          · exact Or.inr ⟨List.mem_cons_of_mem _ h2, h3⟩

theorem collapseWs_mem {l : List Char} {x : Char} (hx : x ∈ collapseWs l) :
    x = ' ' ∨ (x ∈ l ∧ pyIsSpace x = false) :=
  collapseWs_mem_aux l.length l le_rfl x hx

theorem collapseWs_noGt {l : List Char} (h : ∀ c ∈ l, c ≠ '>') :
    ∀ c ∈ collapseWs l, c ≠ '>' := by
  intro c hc
  rcases collapseWs_mem hc with rfl | ⟨h2, _⟩
  · decide
  · exact h c h2

theorem tagRem_none_collapseWs {l : List Char} (h : tagRem l = Option.none) :
    tagRem (collapseWs l) = Option.none := by
  match l with
  | [] => rfl
  | c :: r =>
    by_cases hcs : c = '/'
    · subst hcs
      rw [collapseWs_cons_not_ws _ (by decide)]
      match r with
      | [] => rfl
      | c2 :: r2 =>
        by_cases hn : isNameChar c2
        · have hag : afterGt r2 = Option.none := by
            rw [tagRem_cons_slash_name hn] at h
            exact h
          have hgt : ∀ x ∈ ('/' :: c2 :: r2 : List Char), x ≠ '>' := by
            intro x hx
            rcases List.mem_cons.mp hx with rfl | hx2
            · decide
            · rcases List.mem_cons.mp hx2 with rfl | hx3
              · exact nameChar_ne_gt hn
              · exact afterGt_eq_none_iff.mp hag x hx3
          have hgt2 : ∀ x ∈ collapseWs (c2 :: r2), x ≠ '>' := by
            intro x hx
            rcases collapseWs_mem hx with rfl | ⟨h2, _⟩
            · decide
            · exact hgt x (List.mem_cons_of_mem _ h2)
          exact tagRem_none_of_noGt
            (fun x hx => by
              rcases List.mem_cons.mp hx with rfl | hx2
              · decide
              · exact hgt2 x hx2)
        · rcases not_nameChar_cases (by simpa using hn) with rfl | rfl | rfl
          · rw [collapseWs_cons_ws _ (by decide)]
            rfl
          · rw [collapseWs_cons_not_ws _ (by decide)]
            rfl
          · rw [collapseWs_cons_not_ws _ (by decide)]
            rfl
    · by_cases hn : isNameChar c
      · have hag : afterGt r = Option.none := by
          rw [tagRem_cons_name hcs hn] at h
          exact h
        have hgt : ∀ x ∈ (c :: r : List Char), x ≠ '>' := by
          intro x hx
          rcases List.mem_cons.mp hx with rfl | hx2
          · exact nameChar_ne_gt hn
          · exact afterGt_eq_none_iff.mp hag x hx2
        exact tagRem_none_of_noGt (collapseWs_noGt hgt)
      · rcases not_nameChar_cases (by simpa using hn) with rfl | rfl | rfl
        · rw [collapseWs_cons_ws _ (by decide)]
          rfl
        · rw [collapseWs_cons_not_ws _ (by decide)]
          rfl
        · exact absurd rfl hcs

theorem noTagB_dropWhile {p : Char → Bool} {l : List Char}
    (h : noTagB l = true) : noTagB (l.dropWhile p) = true := by
  induction l with
  | nil => exact h
  | cons c r ih =>
    rw [List.dropWhile_cons]
    by_cases hp : p c
    · rw [if_pos hp]
      exact ih (noTagB_tail h)
    · rw [if_neg hp]
      exact h

theorem noTagB_collapseWs_aux :
    ∀ (n : Nat) (l : List Char), l.length ≤ n → noTagB l = true →
      noTagB (collapseWs l) = true := by
  intro n
  induction n with
  | zero =>
    intro l hl _
    match l, hl with
    | [], _ => rfl
  | succ n ih =>
    intro l hl h
    match l with
    | [] => rfl
    | c :: r =>
      simp only [List.length_cons] at hl
      by_cases hw : pyIsSpace c
      · rw [collapseWs_cons_ws _ hw, noTagB_cons, Bool.and_eq_true]
        refine ⟨by rw [if_neg (by decide : ¬(' ' = '<'))], ?_⟩
        have hlen : (r.dropWhile pyIsSpace).length ≤ n := by
          have := (List.dropWhile_sublist pyIsSpace (l := r)).length_le
          omega
        exact ih _ hlen (noTagB_dropWhile (noTagB_tail h))
      · rw [collapseWs_cons_not_ws _ (by simpa using hw), noTagB_cons,
          Bool.and_eq_true]
        refine ⟨?_, ih r (by omega) (noTagB_tail h)⟩
        by_cases hc : c = '<'
        · subst hc
          rw [if_pos rfl]
          rw [noTagB_cons, Bool.and_eq_true, if_pos rfl] at h
          rw [tagRem_none_collapseWs (Option.isNone_iff_eq_none.mp h.1)]
          rfl
        · rw [if_neg hc]

theorem noTagB_collapseWs {l : List Char} (h : noTagB l = true) :
    noTagB (collapseWs l) = true :=
  noTagB_collapseWs_aux l.length l le_rfl h

theorem tagRem_none_append {p w : List Char}
    (h : tagRem (p ++ w) = Option.none) (hw : ∀ c ∈ w, c ≠ '>') :
    tagRem p = Option.none := by
  match p with
  | [] => rfl
  | c :: r =>
    by_cases hcs : c = '/'
    · subst hcs
      match r with
      | [] => rfl
      | c2 :: r2 =>
        by_cases hn : isNameChar c2
        · rw [tagRem_cons_slash_name hn]
          have hag : afterGt (r2 ++ w) = Option.none := by
            rw [List.cons_append, List.cons_append,
              tagRem_cons_slash_name hn] at h
            exact h
          exact afterGt_eq_none_iff.mpr
            (fun x hx =>
              afterGt_eq_none_iff.mp hag x (List.mem_append_left _ hx))
        · exact tagRem_cons_slash_notname (by simpa using hn)
    · by_cases hn : isNameChar c
      · rw [tagRem_cons_name hcs hn]
        have hag : afterGt (r ++ w) = Option.none := by
          rw [List.cons_append, tagRem_cons_name hcs hn] at h
          exact h
        exact afterGt_eq_none_iff.mpr
          (fun x hx =>
            afterGt_eq_none_iff.mp hag x (List.mem_append_left _ hx))
      · exact tagRem_cons_notname hcs (by simpa using hn)

theorem noTagB_append {p w : List Char}
    (h : noTagB (p ++ w) = true) (hw : ∀ c ∈ w, c ≠ '>') :
    noTagB p = true := by
  induction p with
  | nil => rfl
  | cons c r ih =>
    rw [List.cons_append, noTagB_cons, Bool.and_eq_true] at h
    rw [noTagB_cons, Bool.and_eq_true]
    refine ⟨?_, ih h.2⟩
    by_cases hc : c = '<'
    · rw [if_pos hc]
      rw [if_pos hc] at h
      rw [tagRem_none_append (Option.isNone_iff_eq_none.mp h.1) hw]
      rfl
    · rw [if_neg hc]

theorem noTagB_dropTrailWs {l : List Char} (h : noTagB l = true) :
    noTagB (dropTrailWs l) = true := by
  obtain ⟨w, hw, hws⟩ := dropTrailWs_decomp l
  rw [hw] at h
  exact noTagB_append h
    (fun c hc hgt => by
      have := hws c hc
      subst hgt
      exact absurd this (by decide))

theorem noAdjWs_cons2 (c1 c2 : Char) (r : List Char) :
    noAdjWs (c1 :: c2 :: r) =
      (!(pyIsSpace c1 && pyIsSpace c2) && noAdjWs (c2 :: r)) := rfl

theorem noAdjWs_tail {c : Char} {r : List Char}
    (h : noAdjWs (c :: r) = true) : noAdjWs r = true := by
  match r with
  | [] => rfl
  | c2 :: t =>
    rw [noAdjWs_cons2, Bool.and_eq_true] at h
    exact h.2

theorem noAdjWs_collapseWs_aux :
    ∀ (n : Nat) (l : List Char), l.length ≤ n →
      noAdjWs (collapseWs l) = true := by
  intro n
  induction n with
  | zero =>
    intro l hl
    match l, hl with
    | [], _ => rfl
  | succ n ih =>
    intro l hl
    match l with
    | [] => rfl
    | c :: r =>
      simp only [List.length_cons] at hl
      by_cases hw : pyIsSpace c
      · rw [collapseWs_cons_ws _ hw]
        cases hr : r.dropWhile pyIsSpace with
        | nil => rfl
        | cons e t =>
          have he : pyIsSpace e = false := dropWhile_head_not r hr
          have hlen : (e :: t).length ≤ n := by
            have := (List.dropWhile_sublist pyIsSpace (l := r)).length_le
            rw [hr] at this
            omega
          rw [collapseWs_cons_not_ws t he, noAdjWs_cons2, Bool.and_eq_true]
          refine ⟨by rw [he]; rfl, ?_⟩
          have := ih (e :: t) hlen
          rw [collapseWs_cons_not_ws t he] at this
          exact this
      · rw [collapseWs_cons_not_ws _ (by simpa using hw)]
        cases hr : collapseWs r with
        | nil => rfl
        | cons e t =>
          rw [noAdjWs_cons2, Bool.and_eq_true]
          refine ⟨by rw [show pyIsSpace c = false by simpa using hw]; rfl, ?_⟩
          have := ih r (by omega)
          rw [hr] at this
          exact this

theorem noAdjWs_collapseWs (l : List Char) :
    noAdjWs (collapseWs l) = true :=
  noAdjWs_collapseWs_aux l.length l le_rfl

theorem noAdjWs_dropWhile {p : Char → Bool} {l : List Char}
    (h : noAdjWs l = true) : noAdjWs (l.dropWhile p) = true := by
  induction l with
  | nil => exact h
  | cons c r ih =>
    rw [List.dropWhile_cons]
    by_cases hp : p c
    · rw [if_pos hp]
      exact ih (noAdjWs_tail h)
    · rw [if_neg hp]
      exact h

theorem noAdjWs_prefix :
    ∀ {p w : List Char}, noAdjWs (p ++ w) = true → noAdjWs p = true := by
  intro p
  induction p with
  | nil => intro w _; rfl
  | cons a t ih =>
    intro w h
    match t with
    | [] => rfl
    | b :: u =>
      rw [List.cons_append, List.cons_append, noAdjWs_cons2,
        Bool.and_eq_true] at h
      rw [noAdjWs_cons2, Bool.and_eq_true]
      exact ⟨h.1, ih (by rw [List.cons_append]; exact h.2)⟩

theorem noAdjWs_dropTrailWs {l : List Char} (h : noAdjWs l = true) :
    noAdjWs (dropTrailWs l) = true := by
  obtain ⟨w, hw, _⟩ := dropTrailWs_decomp l
  rw [hw] at h
  exact noAdjWs_prefix h

theorem noAdjWs_pyStripL {l : List Char} (h : noAdjWs l = true) :
    noAdjWs (pyStripL l) = true :=
  noAdjWs_dropTrailWs (noAdjWs_dropWhile h)

theorem mem_dropTrailWs {l : List Char} {x : Char}
    (hx : x ∈ dropTrailWs l) : x ∈ l := by
  unfold dropTrailWs at hx
  rw [List.mem_reverse] at hx
  exact List.mem_reverse.mp ((List.dropWhile_sublist pyIsSpace).mem hx)

theorem mem_pyStripL {l : List Char} {x : Char}
    (hx : x ∈ pyStripL l) : x ∈ l :=
  (List.dropWhile_sublist pyIsSpace).mem (mem_dropTrailWs hx)

theorem map_id_of {f : Char → Char} :
    ∀ {l : List Char}, (∀ x ∈ l, f x = x) → l.map f = l := by
  intro l
  induction l with
  | nil => intro _; rfl
  | cons c r ih =>
    intro h
    rw [List.map_cons, h c (List.mem_cons_self _ _),
      ih (fun x hx => h x (List.mem_cons_of_mem _ hx))]

theorem collapseWs_eq_self_of_aux :
    ∀ (n : Nat) (l : List Char), l.length ≤ n →
      (∀ x ∈ l, pyIsSpace x = true → x = ' ') → noAdjWs l = true →
      collapseWs l = l := by
  intro n
  induction n with
  | zero =>
    intro l hl _ _
    match l, hl with
    | [], _ => rfl
  | succ n ih =>
    intro l hl hsp hadj
    match l with
    | [] => rfl
    | c :: r =>
      simp only [List.length_cons] at hl
      by_cases hw : pyIsSpace c
      · rw [collapseWs_cons_ws _ hw,
          hsp c (List.mem_cons_self _ _) hw]
        have hdr : r.dropWhile pyIsSpace = r := by
          cases r with
          | nil => rfl
          | cons d t =>
            rw [noAdjWs_cons2, Bool.and_eq_true] at hadj
            have hd : pyIsSpace d = false := by
              by_contra hdd
              rw [Bool.not_eq_false] at hdd
              have h1 := hadj.1
              rw [show pyIsSpace c = true by simpa using hw, hdd] at h1
              exact absurd h1 (by decide)
            rw [List.dropWhile_cons, hd]
            simp
        rw [hdr, ih r (by omega)
          (fun x hx => hsp x (List.mem_cons_of_mem _ hx))
          (noAdjWs_tail hadj)]
      · rw [collapseWs_cons_not_ws _ (by simpa using hw),
          ih r (by omega)
            (fun x hx => hsp x (List.mem_cons_of_mem _ hx))
            (noAdjWs_tail hadj)]

theorem collapseWs_eq_self_of {l : List Char}
    (hsp : ∀ x ∈ l, pyIsSpace x = true → x = ' ')
    (hadj : noAdjWs l = true) : collapseWs l = l :=
  collapseWs_eq_self_of_aux l.length l le_rfl hsp hadj

theorem normDescStr_idem {s : String} {c : String}
    (h : normDescStr s = some c) : normDescStr c = some c := by
  unfold normDescStr at h
  set t3 := pyStripL (collapseWs ((removeTags s.data).map replNbsp)) with ht3
  by_cases hnil : t3 = []
  · rw [if_pos hnil] at h
    cases h
  · rw [if_neg hnil] at h
    have hc : c = String.mk t3 := (Option.some.injEq _ _).mp h.symm
    have hsp : ∀ x ∈ t3, pyIsSpace x = true → x = ' ' := by
      intro x hx hxs
      have hx2 := mem_pyStripL hx
      rcases collapseWs_mem hx2 with rfl | ⟨_, hns⟩
      · rfl
      · rw [hns] at hxs
        cases hxs
    have hnb : noTagB t3 = true :=
      noTagB_dropTrailWs (noTagB_dropWhile
        (noTagB_collapseWs (noTagB_map (noTagB_removeTags s.data))))
    have hadj : noAdjWs t3 = true :=
      noAdjWs_pyStripL (noAdjWs_collapseWs _)
    have hmap : t3.map replNbsp = t3 := by
      refine map_id_of (fun x hx => ?_)
      unfold replNbsp
      by_cases hxa : x = '\xa0'
      · subst hxa
        have := hsp _ hx (by decide)
        cases this
      · rw [if_neg hxa]
    have hdata : (String.mk t3).data = t3 := rfl
    unfold normDescStr
    rw [hc, hdata, removeTags_eq_self_of_noTagB hnb, hmap,
      collapseWs_eq_self_of hsp hadj]
    have hstrip : pyStripL t3 = t3 := by
      rw [ht3]
      exact pyStripL_idem _
    rw [hstrip, if_neg hnil]

theorem normalize_description_idem (x : PyVal) :
    normalize_description (pyOfOpt (normalize_description x)) =
      normalize_description x := by
  cases h : normalize_description x with
  | none => rfl
  | some c =>
    have hc : normDescStr c = some c := by
      cases x with
      | none => simp [normalize_description] at h
      | str s =>
        have h2 : normDescStr (pyStr (PyVal.str s)) = some c := h
        exact normDescStr_idem h2
      | int n =>
        have h2 : normDescStr (pyStr (PyVal.int n)) = some c := h
        exact normDescStr_idem h2
      | list xs =>
        have h2 : normDescStr
            (String.intercalate "\n" ((xs.filter pyTruthy).map pyStr)) =
              some c := h
        exact normDescStr_idem h2
    have hg : normalize_description (PyVal.str c) = some c := hc
    exact hg

/-- C8: `normalize_description` and `normalize_currency` are idempotent —
feeding either normalizer's own output (as the Python value it returns)
back into it yields the same result as applying it once. -/
theorem claim_C8_normalization_idempotent (x : PyVal) :
    normalize_description (pyOfOpt (normalize_description x)) =
        normalize_description x ∧
      normalize_currency (pyOfOpt (normalize_currency x)) =
        normalize_currency x :=
  ⟨normalize_description_idem x, normalize_currency_idem x⟩
